import Mathlib

/-!
Verification of the orchestration core of the ryds-car-hunter backend
(`index.ts`: `scrapeAllSites`, `runInBatches`, `processSite`) and of the
site-adapter extraction logic (`cartotrade`, `carwow`, `motorway` configs).

The embedding is a shallow model of the TypeScript source.  External
I/O actions (page creation, login, navigation, filter application,
extraction) are parameterised by a per-run `Behaviour` record giving the
result of each action, exactly where the source `await`s an adapter call.
Concurrency within one `Promise.all` batch is modelled by an explicit
per-batch completion order: the only shared mutable state touched by a
job is the `currentSiteIndex` counter and the delivery of a progress
event, and in the source the read of the counter at emission time and
the increment that follows lie in one synchronous (await-free) segment,
so a batch's effect on shared state is a fold of per-job atomic
completion segments in completion order, while `Promise.all` returns
results in submission order.
-/

namespace CarHunter

/-- Search parameters, from `src/types/index.ts` (`SearchParams`). -/
structure SearchParams where
  make : String
  model : String
  minPrice : Option Nat := none
  maxPrice : Option Nat := none
  minMileage : Option Nat := none
  maxMileage : Option Nat := none
  color : Option String := none
  minAge : Option Nat := none
  maxAge : Option Nat := none
  vatQualifying : Option Bool := none
deriving DecidableEq

/-- Login credentials, from `src/types/index.ts` (`LoginCredentials`). -/
structure LoginCredentials where
  username : String
  password : String
deriving DecidableEq

/-- The common listing envelope produced by every adapter's `extractCars`
(the object literal pushed onto `carData`).  `url` is an `Option` because
`getAttribute("href")` can return `null`. -/
structure Listing where
  url : Option String
  imageUrl : String
  title : String
  price : String
  location : String
  registration : String
  source : String
  timestamp : String
deriving DecidableEq

/-- One progress event: the arguments of an `onProgress` call in
`processSite` (`siteName, extractedData, totalSites, currentSiteIndex + 1`). -/
structure Event where
  siteName : String
  cars : List Listing
  totalSites : Nat
  currentSite : Nat
deriving DecidableEq

/-- A progress subscriber.  Its only effects on the orchestration are that it
receives each emitted event and that the call may throw synchronously;
`throwsOn` says on which events it throws. -/
structure Subscriber where
  throwsOn : Event → Bool

/-- The static shape of one site configuration (`SiteConfig` in `index.ts`):
which optional members are present and the navigation flag. -/
structure SiteSpec where
  name : String
  hasApplyFilters : Bool
  hasExtractCars : Bool
  shouldNavigateToSearchUrl : Bool
  hasBuildSearchUrl : Bool
deriving DecidableEq

/-- Decidable equality for `Except`, needed to evaluate run results. -/
instance exceptDecEq {ε α : Type} [DecidableEq ε] [DecidableEq α] :
    DecidableEq (Except ε α) := fun a b =>
  match a, b with
  | .ok x, .ok y =>
    if h : x = y then .isTrue (by rw [h])
    else .isFalse (by intro hc; cases hc; exact h rfl)
  | .error x, .error y =>
    if h : x = y then .isTrue (by rw [h])
    else .isFalse (by intro hc; cases hc; exact h rfl)
  | .ok _, .error _ => .isFalse (by intro hc; cases hc)
  | .error _, .ok _ => .isFalse (by intro hc; cases hc)

/-- The result of each external (awaited) action performed for one job in one
run: `Except.error e` models the promise rejecting / the call throwing with
message `e`. -/
structure Behaviour where
  newPage : Except String Unit
  login : Except String Unit
  pageWaits : Except String Unit
  buildSearchUrl : Except String String
  navigate : Except String Unit
  applyFilters : Except String Unit
  extractCars : Except String (List Listing)
deriving DecidableEq

/-- How far one `processSite` call gets before its completion segment:
`reject` models `context.newPage()` throwing (outside the `try`, so the
returned promise rejects); `caught` models an exception inside the `try`
before the emission point (handled by the `catch`, which returns `null`);
`finished xs` models reaching the emission point with `extractedData = xs`
(`none` is JavaScript `null`, produced when there is no `extractCars`). -/
inductive JobPre where
  | reject (err : String)
  | caught (err : String)
  | finished (extracted : Option (List Listing))
deriving DecidableEq

/-- Read an environment variable with the `|| ""` default of `index.ts`. -/
def envOr (env : String → Option String) (key : String) : String :=
  (env key).getD ""

/-- The `siteCredentials` record of `index.ts` (lines 142-163), in literal
order.  Note the `CarToTrade` entry reads `CARTOTRADE_USERNAME` for the
username but `CARWOW_PASSWORD` for the password. -/
def siteCredentials (env : String → Option String) : List (String × LoginCredentials) :=
  [ ("bca",
      { username := envOr env "BCA_USERNAME", password := envOr env "BCA_PASSWORD" }),
    ("motorway",
      { username := envOr env "MOTORWAY_USERNAME", password := envOr env "MOTORWAY_PASSWORD" }),
    ("carwow",
      { username := envOr env "CARWOW_USERNAME", password := envOr env "CARWOW_PASSWORD" }),
    ("CarToTrade",
      { username := envOr env "CARTOTRADE_USERNAME", password := envOr env "CARWOW_PASSWORD" }),
    ("disposalnetwork",
      { username := envOr env "DISPOSALNETWORK_USERNAME",
        password := envOr env "DISPOSALNETWORK_PASSWORD" }) ]

/-- The credential lookup `siteCredentials[siteConfig.name]` of `processSite`. -/
def lookupCred (env : String → Option String) (name : String) : Option LoginCredentials :=
  (siteCredentials env).lookup name

/-- The pre-completion part of `processSite` (lines 183-310): page creation,
credential check, login, page waits, optional navigation via
`buildSearchUrl`, optional `applyFilters`, optional `extractCars`.  Mirrors
the source's control flow step by step. -/
def jobPre (creds : Option LoginCredentials) (s : SiteSpec) (b : Behaviour) : JobPre :=
  match b.newPage with
  | .error e => .reject e
  | .ok _ =>
    match creds with
    | none => .caught ("No credentials found for " ++ s.name)
    | some cr =>
      if cr.username = "" ∨ cr.password = "" then
        .caught ("Missing username or password for " ++ s.name)
      else
        match b.login with
        | .error e => .caught e
        | .ok _ =>
          match b.pageWaits with
          | .error e => .caught e
          | .ok _ =>
            match (if s.shouldNavigateToSearchUrl ∧ s.hasBuildSearchUrl then
                     match b.buildSearchUrl with
                     | .error e => Except.error e
                     | .ok _ => b.navigate
                   else Except.ok ()) with
            | .error e => .caught e
            | .ok _ =>
              match (if s.hasApplyFilters then b.applyFilters else Except.ok ()) with
              | .error e => .caught e
              | .ok _ =>
                if s.hasExtractCars then
                  match b.extractCars with
                  | .error e => .caught e
                  | .ok xs => .finished (some xs)
                else .finished none

/-- Shared run state of `scrapeAllSites`: the `currentSiteIndex` counter and
the list of progress events delivered so far. -/
structure St where
  counter : Nat
  events : List Event
deriving DecidableEq

/-- The atomic completion segment of one job (lines 287-323 of `index.ts`):
emit the progress event (when a subscriber is present and `extractedData` is
truthy — note `[]` is truthy in JavaScript), then increment
`currentSiteIndex` and return; a throwing subscriber sends control to the
`catch`, which increments the counter and returns `null`.  A rejected job
(`newPage` threw) runs no completion segment at all: the counter is not
incremented and its promise carries the error. -/
def completeJob (sub : Option Subscriber) (total : Nat) (name : String) (pre : JobPre)
    (st : St) : Except String (Option (List Listing)) × St :=
  match pre with
  | .reject e => (.error e, st)
  | .caught _ => (.ok none, { st with counter := st.counter + 1 })
  | .finished xs =>
    match sub, xs with
    | some s, some l =>
      let ev : Event := { siteName := name, cars := l, totalSites := total,
                          currentSite := st.counter + 1 }
      let st1 : St := { counter := st.counter + 1, events := st.events ++ [ev] }
      if s.throwsOn ev then (.ok none, st1) else (.ok (some l), st1)
    | _, _ => (.ok xs, { st with counter := st.counter + 1 })

/-- Run the completion segments of one batch in the given completion order
(`p` lists submission indices within the batch), threading the shared state;
returns the (index, settled promise) pairs in completion order. -/
def runBatchAux (sub : Option Subscriber) (total : Nat) (bs : List (String × JobPre)) :
    List Nat → St → List (Nat × Except String (Option (List Listing))) × St
  | [], st => ([], st)
  | i :: p, st =>
    match bs.get? i with
    | none => runBatchAux sub total bs p st
    | some job =>
      let r := completeJob sub total job.1 job.2 st
      let rest := runBatchAux sub total bs p r.2
      ((i, r.1) :: rest.1, rest.2)

/-- The error `Promise.all` rejects with: the first rejection in completion
order, if any. -/
def firstError (pairs : List (Nat × Except String (Option (List Listing)))) : Option String :=
  (pairs.filterMap (fun q => match q.2 with | .error e => some e | .ok _ => none)).head?

/-- Recover the settled value of the job with submission index `i`. -/
def lookupOutcome (pairs : List (Nat × Except String (Option (List Listing))))
    (i : Nat) : Option (List Listing) :=
  match pairs.find? (fun q => q.1 == i) with
  | some (_, .ok v) => v
  | _ => none

/-- One batch of `runInBatches`: start every job of the batch, let them
complete in order `p`, and model `await Promise.all`: reject with the first
rejection, otherwise resolve with the outcomes in submission order. -/
def runBatch (sub : Option Subscriber) (total : Nat) (bs : List (String × JobPre))
    (p : List Nat) (st : St) : Except String (List (Option (List Listing))) × St :=
  let r := runBatchAux sub total bs p st
  match firstError r.1 with
  | some e => (.error e, r.2)
  | none => (.ok ((List.range bs.length).map (lookupOutcome r.1)), r.2)

/-- The batch loop of `runInBatches` (lines 66-98): process batches
sequentially, concatenating results, stopping (with a rejected promise) at
the first batch whose `Promise.all` rejects. -/
def runBatches (sub : Option Subscriber) (total : Nat) :
    List (List (String × JobPre)) → List (List Nat) → St →
    Except String (List (Option (List Listing))) × St
  | [], _, st => (.ok [], st)
  | bs :: rest, scheds, st =>
    let r1 := runBatch sub total bs (scheds.headD []) st
    match r1.1 with
    | .error e => (.error e, r1.2)
    | .ok outs =>
      let r2 := runBatches sub total rest scheds.tail r1.2
      match r2.1 with
      | .error e => (.error e, r2.2)
      | .ok outs2 => (.ok (outs ++ outs2), r2.2)

/-- Fuel-indexed chunking; `fuel` bounds the recursion depth structurally. -/
def chunksOfAux (K : Nat) : Nat → List α → List (List α)
  | _, [] => []
  | 0, _ => []
  | fuel + 1, l => l.take K :: chunksOfAux K fuel (l.drop K)

/-- The partition of the task list made by the `for` loop of `runInBatches`:
`slice(i, i + K)` for `i = 0, K, 2K, ...`. -/
def chunksOf (K : Nat) (l : List α) : List (List α) :=
  chunksOfAux K l.length l

/-- The final aggregation loop of `scrapeAllSites` (lines 337-351): fold over
the per-site results in submission order, appending array results and
skipping `null` ones (an empty array is truthy, appends nothing). -/
def aggregate (outs : List (Option (List Listing))) : List Listing :=
  outs.foldl (fun acc o => match o with | some xs => acc ++ xs | none => acc) []

/-- Everything observable about one orchestration run. -/
structure RunResult where
  result : Except String (List Listing)
  outcomes : Except String (List (Option (List Listing)))
  events : List Event
  finalCount : Nat
deriving DecidableEq

/-- The per-run job list: one `(name, pre-completion phase)` entry per
configured site, with credentials looked up by site name in
`siteCredentials`, in configuration order. -/
def siteJobs (env : String → Option String) (sites : List (SiteSpec × Behaviour)) :
    List (String × JobPre) :=
  sites.map (fun sb => (sb.1.name, jobPre (lookupCred env sb.1.name) sb.1 sb.2))

/-- The model of `scrapeAllSites`: build the job list from the configured
sites (credentials looked up by site name in `siteCredentials`), run them in
batches of `K` under the given per-batch completion orders, and aggregate. -/
def scrapeAllSitesModel (env : String → Option String) (sub : Option Subscriber)
    (sites : List (SiteSpec × Behaviour)) (K : Nat) (sched : List (List Nat)) : RunResult :=
  let r := runBatches sub sites.length (chunksOf K (siteJobs env sites)) sched
    { counter := 0, events := [] }
  { result := r.1.map aggregate, outcomes := r.1, events := r.2.events,
    finalCount := r.2.counter }

/-- A schedule is valid when it gives, for each batch, a completion order
that is a permutation of the batch's positions. -/
def ValidSched (K : Nat) (jobs : List (String × JobPre)) (sched : List (List Nat)) : Prop :=
  List.Forall₂ (fun bs p => List.Perm p (List.range bs.length)) (chunksOf K jobs) sched

/-- Whether a job's pre-completion phase is a rejected promise. -/
def isReject : JobPre → Bool
  | .reject _ => true
  | _ => false

/-- No job's `context.newPage()` fails in this run. -/
def NoReject (jobs : List (String × JobPre)) : Prop :=
  ∀ j ∈ jobs, isReject j.2 = false

/-- Whether the (possibly absent) subscriber throws on an event. -/
def subThrows : Option Subscriber → Event → Bool
  | none, _ => false
  | some s, ev => s.throwsOn ev

/-- The subscriber, if any, never throws. -/
def SubOK (sub : Option Subscriber) : Prop :=
  ∀ ev, subThrows sub ev = false

/-- The settled value a job contributes when the subscriber does not throw:
`null` for a caught exception, `extractedData` otherwise. -/
def pureOutcome : JobPre → Option (List Listing)
  | .reject _ => none
  | .caught _ => none
  | .finished xs => xs

/-- Whether a job's completion emits a progress event (subscriber present and
`extractedData` truthy). -/
def emitsWith (subPresent : Bool) : JobPre → Bool
  | .finished (some _) => subPresent
  | _ => false

/-- `String.prototype.toUpperCase`, character by character. -/
def toUpperStr (s : String) : String := String.mk (s.data.map Char.toUpper)

/-- A whitespace character as `String.prototype.trim` understands it. -/
def isWsChar (c : Char) : Bool := c = ' ' || c = '\t' || c = '\n' || c = '\r'

/-- `String.prototype.trim`: drop leading and trailing whitespace. -/
def trimStr (s : String) : String :=
  String.mk (((s.data.dropWhile isWsChar).reverse.dropWhile isWsChar).reverse)

/-- `String.prototype.startsWith`. -/
def strStartsWith (s pre1 : String) : Bool := List.isPrefixOf pre1.data s.data

/-- JavaScript `String.prototype.includes`: `needle` occurs as a substring. -/
def strIncludes (hay needle : String) : Bool :=
  (List.range (hay.data.length + 1)).any
    (fun i => List.isPrefixOf needle.data (hay.data.drop i))

/-- JavaScript truthiness of an optional string (absent and `""` are falsy). -/
def truthyStr : Option String → Bool
  | none => false
  | some s => s != ""

/-- JavaScript truthiness of `params.model && params.model.trim()`. -/
def modelTruthy (m : String) : Bool := m != "" && trimStr m != ""

/-- One `.panel` card of the CarToTrade results page: whether the
`h2.title a` anchor exists, its raw `href`, the remaining extracted texts,
and whether some element access throws (the per-card `catch` skips it). -/
structure CartoCard where
  hasLink : Bool
  href : Option String
  imageUrl : String
  title : String
  price : String
  location : String
  reg : String
  faulty : Bool
deriving DecidableEq

/-- The CarToTrade results page as the extraction code sees it: the texts of
the `#vehicleRangeId` options and the result cards. -/
structure CartoPage where
  optionTexts : List String
  panels : List CartoCard
deriving DecidableEq

/-- The fixed domain CarToTrade's extraction prepends to root-relative hrefs. -/
def cartotradeDomain : String := "https://www.cartotrade.com"

/-- The listing built from one CarToTrade card (`cartotradeConfig.extractCars`,
`src/unnamed/part_000` lines 240-312): skip the card when the anchor is
missing or an element access throws; trim the raw href and prepend the fixed
domain when it starts with `/`; tag with source `"CarToTrade"`. -/
def cartotradeCardListing (now : String) (c : CartoCard) : Option Listing :=
  if !c.hasLink || c.faulty then none
  else
    let url := c.href.map trimStr
    some { url := url.map (fun u => if strStartsWith u "/" then cartotradeDomain ++ u else u),
           imageUrl := c.imageUrl, title := c.title, price := c.price,
           location := c.location, registration := c.reg,
           source := "CarToTrade", timestamp := now }

/-- The `_cartotradeSearchExecuted` flag set by `cartotradeConfig.applyFilters`
(`src/unnamed/part_000` lines 145-215), on the path where every page action
succeeds: if a model (or a truthy color) was supplied and the model is truthy
but no `#vehicleRangeId` option's text contains it case-insensitively, the
flag is set to `false` and the function returns early; otherwise the search
is executed and the flag is `true`; with neither model nor color the flag is
`false`. -/
def cartotradeApplyFilters (params : SearchParams) (page : CartoPage) : Option Bool :=
  if modelTruthy params.model || truthyStr params.color then
    if modelTruthy params.model then
      match page.optionTexts.find?
          (fun t => t != "" && strIncludes (toUpperStr t) (toUpperStr params.model)) with
      | some _ => some true
      | none => some false
    else some true
  else some false

/-- `cartotradeConfig.extractCars` (`src/unnamed/part_000` lines 223-314): if
the search-executed flag is exactly `false`, return zero results gracefully;
otherwise extract each card. -/
def cartotradeExtractCars (now : String) (page : CartoPage)
    (searchExecuted : Option Bool) : List Listing :=
  if searchExecuted == some false then []
  else page.panels.filterMap (cartotradeCardListing now)

/-- One result card of the carwow / motorway listing pages. -/
structure SiteCard where
  href : Option String
  imageUrl : String
  title : String
  price : String
  location : String
  reg : String
  faulty : Bool
deriving DecidableEq

/-- The fixed domain carwow's extraction prepends to root-relative hrefs. -/
def carwowDomain : String := "https://dealers.carwow.co.uk"

/-- The listing built from one carwow card (`carwowConfig.extractCars`,
`src/unnamed/part_002` lines 276-339): tagged with source `"CarWow"`. -/
def carwowCardListing (now : String) (c : SiteCard) : Option Listing :=
  if c.faulty then none
  else
    some { url := c.href.map (fun u => if strStartsWith u "/" then carwowDomain ++ u else u),
           imageUrl := c.imageUrl, title := c.title, price := c.price,
           location := c.location, registration := c.reg,
           source := "CarWow", timestamp := now }

/-- `carwowConfig.extractCars`: return `[]` when `_carwowModelApplied` is
exactly `false`, otherwise extract each card. -/
def carwowExtractCars (now : String) (cards : List SiteCard)
    (modelApplied : Option Bool) : List Listing :=
  if modelApplied == some false then []
  else cards.filterMap (carwowCardListing now)

/-- The fixed domain motorway's extraction prepends to root-relative hrefs. -/
def motorwayDomain : String := "https://pro.motorway.co.uk"

/-- The listing built from one motorway card (`motorwayConfig.extractCars`,
`src/unnamed/part_003` lines 155-203): tagged with source `"Motorway"`. -/
def motorwayCardListing (now : String) (c : SiteCard) : Option Listing :=
  if c.faulty then none
  else
    some { url := c.href.map (fun u => if strStartsWith u "/" then motorwayDomain ++ u else u),
           imageUrl := c.imageUrl, title := c.title, price := c.price,
           location := c.location, registration := c.reg,
           source := "Motorway", timestamp := now }

/-- `motorwayConfig.extractCars`: extract each card (no skip flag). -/
def motorwayExtractCars (now : String) (cards : List SiteCard) : List Listing :=
  cards.filterMap (motorwayCardListing now)

/-- The `name` field of `cartotradeConfig`. -/
def cartotradeName : String := "CarToTrade"

/-- The `name` field of `carwowConfig`. -/
def carwowName : String := "carwow"

/-- The `name` field of `motorwayConfig`. -/
def motorwayName : String := "motorway"

/-- The static shape of `cartotradeConfig`: filters present, extraction
present, no search-URL navigation, no `buildSearchUrl`. -/
def cartotradeSpec : SiteSpec :=
  { name := cartotradeName, hasApplyFilters := true, hasExtractCars := true,
    shouldNavigateToSearchUrl := false, hasBuildSearchUrl := false }

/-- The static shape of `carwowConfig`. -/
def carwowSpec : SiteSpec :=
  { name := carwowName, hasApplyFilters := true, hasExtractCars := true,
    shouldNavigateToSearchUrl := false, hasBuildSearchUrl := false }

/-- The static shape of `motorwayConfig` (navigates to a built search URL). -/
def motorwaySpec : SiteSpec :=
  { name := motorwayName, hasApplyFilters := true, hasExtractCars := true,
    shouldNavigateToSearchUrl := true, hasBuildSearchUrl := true }

/-- The behaviour of a CarToTrade job whose page actions all succeed, with
the filter/extraction logic taken from the embedded adapter code: the skip
flag computed by `applyFilters` feeds `extractCars` through the shared page
object. -/
def cartotradeBehaviour (params : SearchParams) (page : CartoPage) (now : String) :
    Behaviour :=
  { newPage := .ok (), login := .ok (), pageWaits := .ok (),
    buildSearchUrl := .ok "", navigate := .ok (), applyFilters := .ok (),
    extractCars := .ok (cartotradeExtractCars now page (cartotradeApplyFilters params page)) }

/-- A start/finish event of one job in the run's scheduling trace, tagged
with the job's global submission index. -/
inductive TraceEv where
  | start (idx : Nat)
  | finish (idx : Nat)
deriving DecidableEq

/-- The trace of one batch: all its jobs start together when the batch
begins, then they finish in the batch's completion order. -/
def batchTrace (bs : List (Nat × (String × JobPre))) (p : List Nat) : List TraceEv :=
  bs.map (fun x => TraceEv.start x.1) ++
    (p.filterMap (fun i => bs.get? i)).map (fun x => TraceEv.finish x.1)

/-- The scheduling trace of a whole run: the batches' traces in sequence
(each batch's `Promise.all` is awaited before the next batch starts). -/
def runTrace (jobs : List (String × JobPre)) (K : Nat) (sched : List (List Nat)) :
    List TraceEv :=
  (List.zipWith batchTrace (chunksOf K jobs.enum) sched).flatten

/-- Deciding schedule validity, so witnesses can be checked by evaluation. -/
instance validSchedDecidable (K : Nat) (jobs : List (String × JobPre))
    (sched : List (List Nat)) : Decidable (ValidSched K jobs sched) := by
  unfold ValidSched
  infer_instance

/-- Deciding absence of rejections. -/
instance noRejectDecidable (jobs : List (String × JobPre)) :
    Decidable (NoReject jobs) := by
  unfold NoReject
  infer_instance

/-- An environment in which every credential variable is set. -/
def envAll : String → Option String := fun _ => some "secret"

/-- A behaviour whose page actions all succeed and whose extraction returns
`xs`. -/
def okBehaviour (xs : List Listing) : Behaviour :=
  { newPage := .ok (), login := .ok (), pageWaits := .ok (),
    buildSearchUrl := .ok "url", navigate := .ok (), applyFilters := .ok (),
    extractCars := .ok xs }

/-- A behaviour whose login throws. -/
def failLoginBehaviour : Behaviour := { okBehaviour [] with login := .error "login blew up" }

/-- A behaviour whose login throws with a different message. -/
def failLoginBehaviour2 : Behaviour :=
  { okBehaviour [] with login := .error "a different explosion" }

/-- A behaviour whose page creation (`context.newPage()`) rejects. -/
def pageFailBehaviour : Behaviour := { okBehaviour [] with newPage := .error "newPage failed" }

/-- A sample motorway listing. -/
def listingA : Listing :=
  { url := some "https://pro.motorway.co.uk/a", imageUrl := "", title := "A",
    price := "1", location := "", registration := "", source := "Motorway",
    timestamp := "t" }

/-- A sample carwow listing. -/
def listingB : Listing :=
  { url := some "https://dealers.carwow.co.uk/b", imageUrl := "", title := "B",
    price := "2", location := "", registration := "", source := "CarWow",
    timestamp := "t" }

/-- A two-site configuration used to instantiate the general theorems. -/
def sitesW : List (SiteSpec × Behaviour) :=
  [(motorwaySpec, okBehaviour [listingA]), (carwowSpec, okBehaviour [listingB])]

/-- A subscriber that never throws. -/
def alwaysOkSub : Subscriber := ⟨fun _ => false⟩

/-- A subscriber that always throws. -/
def throwingSub : Subscriber := ⟨fun _ => true⟩

/-- Search criteria asking for a FORD FOCUS. -/
def fordFocusParams : SearchParams := { make := "FORD", model := "FOCUS" }

/-- A CarToTrade page whose model filter does not offer FOCUS. -/
def noFocusPage : CartoPage := { optionTexts := ["FIESTA", "KA"], panels := [] }

/-- A result card with a root-relative href. -/
def sampleCard : SiteCard :=
  { href := some "/x", imageUrl := "", title := "", price := "", location := "",
    reg := "", faulty := false }

/-- The settled promise of one completed job as a function of its
pre-completion phase alone (what it is whenever the subscriber does not
throw). -/
def jobExcOutcome (pre : JobPre) : Except String (Option (List Listing)) :=
  match pre with
  | .reject e => .error e
  | _ => .ok (pureOutcome pre)

/-- The progress event a completion delivers (before the subscriber-presence
test), as a function of the counter value at completion time. -/
def emittedEvent (total : Nat) (name : String) (pre : JobPre) (c : Nat) : List Event :=
  match pre with
  | .finished (some l) =>
    [{ siteName := name, cars := l, totalSites := total, currentSite := c + 1 }]
  | _ => []

/-- Invariant carried by the shared run state: delivered ordinals are
strictly increasing (hence pairwise distinct), positive, bounded by the
counter, and every event carries the configured total. -/
def EventsInv (total : Nat) (st : St) : Prop :=
  List.Pairwise (· < ·) (st.events.map (fun e => e.currentSite)) ∧
  ∀ e ∈ st.events, e.totalSites = total ∧ 1 ≤ e.currentSite ∧ e.currentSite ≤ st.counter

/-- The settled promise of the job at submission position `i` of the batch. -/
def outAt (bs : List (String × JobPre)) (i : Nat) : Except String (Option (List Listing)) :=
  match bs.get? i with
  | some j => jobExcOutcome j.2
  | none => .ok none

/-- The pure outcome of the job at position `i` of the batch. -/
def pureAt (bs : List (String × JobPre)) (i : Nat) : Option (List Listing) :=
  match bs.get? i with
  | some j => pureOutcome j.2
  | none => none

/-! ### General list lemmas used by the orchestration proofs -/

/-- Indexing a list by all its positions in order recovers the list. -/
theorem filterMap_get?_range {α : Type} (l : List α) :
    (List.range l.length).filterMap l.get? = l := by
  induction l with
  | nil => rfl
  | cons a t ih =>
    have h1 : List.range (a :: t).length = 0 :: (List.range t.length).map Nat.succ :=
      List.range_succ_eq_map t.length
    rw [h1, List.filterMap_cons]
    have h0 : (a :: t).get? 0 = some a := rfl
    rw [h0, List.filterMap_map]
    have h2 : (List.range t.length).filterMap ((a :: t).get? ∘ Nat.succ) =
        (List.range t.length).filterMap t.get? :=
      List.filterMap_congr (fun i _ => List.get?_cons_succ)
    rw [h2, ih]

/-- Mapping a function over all positions of a list, with a default for the
impossible out-of-range case, is mapping over the list. -/
theorem map_get?_range {α β : Type} (f : α → β) (d : β) (l : List α) :
    (List.range l.length).map
      (fun i => match l.get? i with | some a => f a | none => d) = l.map f := by
  induction l with
  | nil => rfl
  | cons a t ih =>
    have h1 : List.range (a :: t).length = 0 :: (List.range t.length).map Nat.succ :=
      List.range_succ_eq_map t.length
    rw [h1, List.map_cons, List.map_map, List.map_cons]
    have h2 : ∀ i ∈ List.range t.length,
        ((fun i => match (a :: t).get? i with | some x => f x | none => d) ∘ Nat.succ) i =
        (fun i => match t.get? i with | some x => f x | none => d) i := by
      intro i _
      simp only [Function.comp, List.get?_cons_succ]
    exact congrArg (List.cons (f a)) (by rw [List.map_congr_left h2]; exact ih)

/-- If `x` lies in an earlier block than `y`, then `x` occurs before `y` in
the flattened list. -/
theorem pair_sublist_flatten {β : Type} (L : List (List β)) :
    ∀ (bi bj : Nat) (Bi Bj : List β) (x y : β),
      bi < bj → L.get? bi = some Bi → L.get? bj = some Bj →
      x ∈ Bi → y ∈ Bj → [x, y].Sublist L.flatten := by
  induction L with
  | nil => intro bi bj Bi Bj x y hlt hi hj hx hy; simp at hi
  | cons B Lt ih =>
    intro bi bj Bi Bj x y hlt hi hj hx hy
    cases bi with
    | zero =>
      have hB : B = Bi := by simpa using hi
      obtain ⟨bj1, rfl⟩ : ∃ m, bj = m + 1 := ⟨bj - 1, by omega⟩
      have hj1 : Lt.get? bj1 = some Bj := by simpa using hj
      have hyJ : y ∈ Lt.flatten := List.mem_flatten.mpr ⟨Bj, List.get?_mem hj1, hy⟩
      have h1 : [x].Sublist B := List.singleton_sublist.mpr (hB ▸ hx)
      have h2 : [y].Sublist Lt.flatten := List.singleton_sublist.mpr hyJ
      simpa using List.Sublist.append h1 h2
    | succ bi1 =>
      obtain ⟨bj1, rfl⟩ : ∃ m, bj = m + 1 := ⟨bj - 1, by omega⟩
      have hi1 : Lt.get? bi1 = some Bi := by simpa using hi
      have hj1 : Lt.get? bj1 = some Bj := by simpa using hj
      have hrec := ih bi1 bj1 Bi Bj x y (by omega) hi1 hj1 hx hy
      rw [List.flatten_cons]
      exact hrec.trans (List.sublist_append_right B Lt.flatten)

/-- Extract the pointwise relation of `Forall₂` at one position. -/
theorem forall₂_get? {α β : Type} {R : α → β → Prop} {l₁ : List α} {l₂ : List β}
    (h : List.Forall₂ R l₁ l₂) :
    ∀ {n : Nat} {a : α}, l₁.get? n = some a → ∃ b, l₂.get? n = some b ∧ R a b := by
  induction h with
  | nil => intro n a ha; simp at ha
  | @cons x y l1 l2 hR hrest ih =>
    intro n a ha
    cases n with
    | zero =>
      have hxa : x = a := by simpa using ha
      exact ⟨y, rfl, hxa ▸ hR⟩
    | succ m => simpa using ih (by simpa using ha)

/-! ### Facts about the batch partition -/

/-- Unfolding `chunksOfAux` on a nonempty list with fuel to spare. -/
theorem chunksOfAux_cons {α : Type} (K fuel : Nat) (a : α) (t : List α) :
    chunksOfAux K (fuel + 1) (a :: t) =
      (a :: t).take K :: chunksOfAux K fuel ((a :: t).drop K) := rfl

/-- The batch partition concatenates back to the original list. -/
theorem chunksOfAux_flatten {α : Type} (K : Nat) (hK : 0 < K) :
    ∀ (fuel : Nat) (l : List α), l.length ≤ fuel → (chunksOfAux K fuel l).flatten = l := by
  intro fuel
  induction fuel with
  | zero =>
    intro l hl
    have : l = [] := List.length_eq_zero.mp (Nat.le_zero.mp hl)
    subst this; rfl
  | succ fuel ih =>
    intro l hl
    cases l with
    | nil => rfl
    | cons a t =>
      have hdrop : ((a :: t).drop K).length ≤ fuel := by
        simp only [List.length_drop, List.length_cons] at *
        omega
      rw [chunksOfAux_cons, List.flatten_cons, ih _ hdrop, List.take_append_drop]

/-- The number of batches is `⌈n / K⌉`. -/
theorem chunksOfAux_count {α : Type} (K : Nat) (hK : 0 < K) :
    ∀ (fuel : Nat) (l : List α), l.length ≤ fuel →
      (chunksOfAux K fuel l).length = (l.length + K - 1) / K := by
  intro fuel
  induction fuel with
  | zero =>
    intro l hl
    have : l = [] := List.length_eq_zero.mp (Nat.le_zero.mp hl)
    subst this
    simpa using (Nat.div_eq_of_lt (by omega)).symm
  | succ fuel ih =>
    intro l hl
    cases l with
    | nil => simpa using (Nat.div_eq_of_lt (by omega)).symm
    | cons a t =>
      have hdrop : ((a :: t).drop K).length ≤ fuel := by
        simp only [List.length_drop, List.length_cons] at *
        omega
      rw [chunksOfAux_cons, List.length_cons, ih _ hdrop, List.length_drop]
      have hn : 1 ≤ (a :: t).length := by simp
      rcases le_or_lt (a :: t).length K with hle | hgt
      · have h0 : (a :: t).length - K = 0 := by omega
        rw [h0]
        have h1 : (0 + K - 1) / K = 0 := Nat.div_eq_of_lt (by omega)
        have h2 : ((a :: t).length + K - 1) / K = 1 := by
          have e : (a :: t).length + K - 1 = ((a :: t).length - 1) + K := by omega
          rw [e, Nat.add_div_right _ hK, Nat.div_eq_of_lt (by omega)]
        omega
      · have e1 : (a :: t).length + K - 1 = ((a :: t).length - 1) + K := by omega
        have e2 : (a :: t).length - K + K - 1 = ((a :: t).length - K - 1) + K := by omega
        rw [e1, e2, Nat.add_div_right _ hK, Nat.add_div_right _ hK]
        have e3 : ((a :: t).length - 1) / K = (((a :: t).length - 1) - K) / K + 1 :=
          Nat.div_eq_sub_div hK (by omega)
        have e4 : (a :: t).length - 1 - K = (a :: t).length - K - 1 := by omega
        rw [e4] at e3
        omega

/-- Each batch has at most `K` jobs and is nonempty. -/
theorem chunksOfAux_sizes {α : Type} (K : Nat) (hK : 0 < K) :
    ∀ (fuel : Nat) (l : List α), ∀ b ∈ chunksOfAux K fuel l, b.length ≤ K ∧ b ≠ [] := by
  intro fuel
  induction fuel with
  | zero => intro l b hb; cases l <;> simp [chunksOfAux] at hb
  | succ fuel ih =>
    intro l b hb
    cases l with
    | nil => simp [chunksOfAux] at hb
    | cons a t =>
      rw [chunksOfAux_cons] at hb
      rcases List.mem_cons.mp hb with rfl | hb1
      · refine ⟨by rw [List.length_take]; exact inf_le_left, ?_⟩
        cases K with
        | zero => omega
        | succ k => simp
      · exact ih _ b hb1

/-- The batch partition's shape depends only on the list's length. -/
theorem chunksOfAux_map_length {α β : Type} (K : Nat) :
    ∀ (fuel : Nat) (l₁ : List α) (l₂ : List β), l₁.length = l₂.length →
      (chunksOfAux K fuel l₁).map List.length = (chunksOfAux K fuel l₂).map List.length := by
  intro fuel
  induction fuel with
  | zero =>
    intro l₁ l₂ h
    cases l₁ <;> cases l₂ <;> simp_all [chunksOfAux]
  | succ fuel ih =>
    intro l₁ l₂ h
    cases l₁ with
    | nil => cases l₂ with
      | nil => rfl
      | cons b t2 => simp at h
    | cons a t => cases l₂ with
      | nil => simp at h
      | cons b t2 =>
        rw [chunksOfAux_cons, chunksOfAux_cons, List.map_cons, List.map_cons]
        congr 1
        · simp only [List.length_take]
          omega
        · exact ih _ _ (by simp only [List.length_drop]; omega)

/-- `chunksOf` version of `chunksOfAux_flatten`. -/
theorem chunksOf_flatten {α : Type} (K : Nat) (hK : 0 < K) (l : List α) :
    (chunksOf K l).flatten = l :=
  chunksOfAux_flatten K hK l.length l le_rfl

/-- `chunksOf` version of `chunksOfAux_count`. -/
theorem chunksOf_count {α : Type} (K : Nat) (hK : 0 < K) (l : List α) :
    (chunksOf K l).length = (l.length + K - 1) / K :=
  chunksOfAux_count K hK l.length l le_rfl

/-- `chunksOf` version of `chunksOfAux_sizes`. -/
theorem chunksOf_sizes {α : Type} (K : Nat) (hK : 0 < K) (l : List α) :
    ∀ b ∈ chunksOf K l, b.length ≤ K ∧ b ≠ [] :=
  chunksOfAux_sizes K hK l.length l

/-- A valid schedule for the job list is valid for the partition of any
equally long list (the per-batch lengths agree). -/
theorem validSched_transfer {γ : Type} {A : List (List (String × JobPre))} {B : List (List γ)}
    {sched : List (List Nat)}
    (hlen : A.map List.length = B.map List.length)
    (h : List.Forall₂ (fun bs p => p.Perm (List.range bs.length)) A sched) :
    List.Forall₂ (fun bs p => p.Perm (List.range bs.length)) B sched := by
  induction h generalizing B with
  | nil => cases B with
    | nil => exact .nil
    | cons b B1 => simp at hlen
  | cons hR hrest ih =>
    cases B with
    | nil => simp at hlen
    | cons b B1 =>
      simp only [List.map_cons, List.cons.injEq] at hlen
      exact .cons (hlen.1 ▸ hR) (ih hlen.2)

/-! ### Properties of one completion segment -/

/-- With a non-throwing subscriber the settled value of a completion is a
pure function of the pre-completion phase. -/
theorem completeJob_fst_ok (sub : Option Subscriber) (hsub : SubOK sub)
    (total : Nat) (name : String) (pre : JobPre) (st : St) :
    (completeJob sub total name pre st).1 = jobExcOutcome pre := by
  cases pre with
  | reject e => rfl
  | caught e => rfl
  | finished xs =>
    cases sub with
    | none => cases xs <;> rfl
    | some s =>
      cases xs with
      | none => rfl
      | some l =>
        have h : s.throwsOn (⟨name, l, total, st.counter + 1⟩ : Event) = false :=
          hsub (⟨name, l, total, st.counter + 1⟩ : Event)
        simp [completeJob, h, jobExcOutcome, pureOutcome]

/-- A completion that is not a rejection settles to `ok`. -/
theorem completeJob_fst_not_error (sub : Option Subscriber) (total : Nat) (name : String)
    (pre : JobPre) (st : St) (h : isReject pre = false) :
    ∃ v, (completeJob sub total name pre st).1 = Except.ok v := by
  cases pre with
  | reject e => simp [isReject] at h
  | caught e => exact ⟨none, rfl⟩
  | finished xs =>
    cases sub with
    | none => exact ⟨xs, by cases xs <;> rfl⟩
    | some s =>
      cases xs with
      | none => exact ⟨none, rfl⟩
      | some l =>
        simp only [completeJob]
        split
        · exact ⟨none, rfl⟩
        · exact ⟨some l, rfl⟩

/-- A rejected job settles to its page-creation error. -/
theorem completeJob_fst_reject (sub : Option Subscriber) (total : Nat) (name : String)
    (e : String) (st : St) :
    (completeJob sub total name (.reject e) st).1 = Except.error e := rfl

/-- The counter increases by one on every completion, and not at all on a
rejection. -/
theorem completeJob_counter (sub : Option Subscriber) (total : Nat) (name : String)
    (pre : JobPre) (st : St) :
    (completeJob sub total name pre st).2.counter =
      st.counter + (if isReject pre then 0 else 1) := by
  cases pre with
  | reject e => simp [completeJob, isReject]
  | caught e => simp [completeJob, isReject]
  | finished xs =>
    cases sub with
    | none => cases xs <;> simp [completeJob, isReject]
    | some s =>
      cases xs with
      | none => simp [completeJob, isReject]
      | some l =>
        simp only [completeJob, isReject]
        split <;> simp

/-- The events after a completion are the old events plus the emitted one,
if any. -/
theorem completeJob_events (sub : Option Subscriber) (total : Nat) (name : String)
    (pre : JobPre) (st : St) :
    (completeJob sub total name pre st).2.events =
      st.events ++ (if sub.isSome then emittedEvent total name pre st.counter else []) := by
  cases pre with
  | reject e => simp [completeJob, emittedEvent]
  | caught e => simp [completeJob, emittedEvent]
  | finished xs =>
    cases sub with
    | none => cases xs <;> simp [completeJob, emittedEvent]
    | some s =>
      cases xs with
      | none => simp [completeJob, emittedEvent]
      | some l =>
        simp only [completeJob, emittedEvent, Option.isSome_some, if_true]
        split <;> rfl

/-- One completion segment preserves the event invariant. -/
theorem completeJob_inv (sub : Option Subscriber) (total : Nat) (name : String)
    (pre : JobPre) (st : St) (h : EventsInv total st) :
    EventsInv total (completeJob sub total name pre st).2 := by
  obtain ⟨h1, h2⟩ := h
  have hstep : ∀ e ∈ st.events, e.totalSites = total ∧ 1 ≤ e.currentSite ∧
      e.currentSite ≤ st.counter + 1 := fun e he =>
    ⟨(h2 e he).1, (h2 e he).2.1, Nat.le_succ_of_le (h2 e he).2.2⟩
  cases pre with
  | reject e => exact ⟨h1, h2⟩
  | caught e => exact ⟨h1, hstep⟩
  | finished xs =>
    cases sub with
    | none => cases xs <;> exact ⟨h1, hstep⟩
    | some s =>
      cases xs with
      | none => exact ⟨h1, hstep⟩
      | some l =>
        have key : EventsInv total
            (⟨st.counter + 1,
              st.events ++ [(⟨name, l, total, st.counter + 1⟩ : Event)]⟩ : St) := by
          constructor
          · rw [List.map_append, List.pairwise_append]
            refine ⟨h1, by simp, ?_⟩
            intro a ha b hb
            simp only [List.map_cons, List.map_nil, List.mem_singleton] at hb
            subst hb
            obtain ⟨e0, he0, rfl⟩ := List.mem_map.mp ha
            have := (h2 e0 he0).2.2
            omega
          · intro e he
            rcases List.mem_append.mp he with he1 | he2
            · exact hstep e he1
            · simp only [List.mem_singleton] at he2
              subst he2
              exact ⟨rfl, Nat.succ_le_succ (Nat.zero_le _), le_rfl⟩
        simp only [completeJob]
        split <;> exact key

/-- Whether a job emits: count form. -/
theorem emittedEvent_length (total : Nat) (name : String) (pre : JobPre) (c : Nat) :
    (emittedEvent total name pre c).length = if emitsWith true pre then 1 else 0 := by
  cases pre with
  | reject e => rfl
  | caught e => rfl
  | finished xs => cases xs <;> rfl

/-- Event-count effect of one completion. -/
theorem completeJob_events_length (sub : Option Subscriber) (total : Nat) (name : String)
    (pre : JobPre) (st : St) :
    (completeJob sub total name pre st).2.events.length =
      st.events.length + (if emitsWith (Option.isSome sub) pre then 1 else 0) := by
  rw [completeJob_events, List.length_append]
  cases sub with
  | none =>
    have : emitsWith false pre = false := by
      cases pre with
      | finished xs => cases xs <;> rfl
      | reject e => rfl
      | caught e => rfl
    simp [this]
  | some s => simp [emittedEvent_length]

/-! ### Properties of one batch -/

/-- A non-rejecting job's promise resolves to its pure outcome. -/
theorem jobExcOutcome_ok (pre : JobPre) (h : isReject pre = false) :
    jobExcOutcome pre = .ok (pureOutcome pre) := by
  cases pre <;> simp_all [isReject, jobExcOutcome]

/-- The batch fold preserves the event invariant for any completion order. -/
theorem runBatchAux_inv (sub : Option Subscriber) (total : Nat)
    (bs : List (String × JobPre)) :
    ∀ (p : List Nat) (st : St), EventsInv total st →
      EventsInv total (runBatchAux sub total bs p st).2 := by
  intro p
  induction p with
  | nil => intro st h; exact h
  | cons i p ih =>
    intro st h
    cases hg : bs.get? i with
    | none => simp only [runBatchAux, hg]; exact ih st h
    | some job =>
      simp only [runBatchAux, hg]
      exact ih _ (completeJob_inv _ _ _ _ _ h)

/-- The counter advances by the number of completions when no job rejects. -/
theorem runBatchAux_counter (sub : Option Subscriber) (total : Nat)
    (bs : List (String × JobPre)) :
    ∀ (p : List Nat) (st : St),
      (∀ i ∈ p, ∃ j, bs.get? i = some j ∧ isReject j.2 = false) →
      (runBatchAux sub total bs p st).2.counter = st.counter + p.length := by
  intro p
  induction p with
  | nil => intro st _; simp [runBatchAux]
  | cons i p ih =>
    intro st hp
    obtain ⟨j, hj, hrej⟩ := hp i (List.mem_cons_self i p)
    simp only [runBatchAux, hj]
    rw [ih _ (fun k hk => hp k (List.mem_cons_of_mem _ hk))]
    rw [completeJob_counter, hrej]
    simp only [Bool.false_eq_true, if_false, List.length_cons]
    omega

/-- The number of delivered events grows by the number of emitting jobs
processed, for any subscriber behaviour. -/
theorem runBatchAux_events_length (sub : Option Subscriber) (total : Nat)
    (bs : List (String × JobPre)) :
    ∀ (p : List Nat) (st : St),
      (runBatchAux sub total bs p st).2.events.length =
        st.events.length +
          (p.filterMap bs.get?).countP (fun j => emitsWith (Option.isSome sub) j.2) := by
  intro p
  induction p with
  | nil => intro st; simp [runBatchAux]
  | cons i p ih =>
    intro st
    cases hg : bs.get? i with
    | none => simp only [runBatchAux, hg, List.filterMap_cons]; exact ih st
    | some job =>
      simp only [runBatchAux, hg, List.filterMap_cons]
      rw [ih, completeJob_events_length, List.countP_cons]
      omega

/-- With a non-throwing subscriber, the settled pairs are determined by the
submission positions alone. -/
theorem runBatchAux_pairs (sub : Option Subscriber) (hsub : SubOK sub) (total : Nat)
    (bs : List (String × JobPre)) :
    ∀ (p : List Nat) (st : St), (∀ i ∈ p, i < bs.length) →
      (runBatchAux sub total bs p st).1 = p.map (fun i => (i, outAt bs i)) := by
  intro p
  induction p with
  | nil => intro st _; rfl
  | cons i p ih =>
    intro st hp
    cases hg : bs.get? i with
    | none =>
      exact absurd (List.get?_eq_none.mp hg)
        (by have := hp i (List.mem_cons_self i p); omega)
    | some job =>
      simp only [runBatchAux, hg, List.map_cons]
      rw [completeJob_fst_ok sub hsub, ih _ (fun k hk => hp k (List.mem_cons_of_mem _ hk))]
      have houtAt : outAt bs i = jobExcOutcome job.2 := by unfold outAt; rw [hg]
      rw [houtAt]

/-- If every processed job is ok, every settled pair is ok, for any
subscriber behaviour. -/
theorem runBatchAux_all_ok (sub : Option Subscriber) (total : Nat)
    (bs : List (String × JobPre)) :
    ∀ (p : List Nat) (st : St),
      (∀ i ∈ p, ∀ j, bs.get? i = some j → isReject j.2 = false) →
      ∀ q ∈ (runBatchAux sub total bs p st).1, ∃ v, q.2 = Except.ok v := by
  intro p
  induction p with
  | nil => intro st _ q hq; simp [runBatchAux] at hq
  | cons i p ih =>
    intro st hp q hq
    cases hg : bs.get? i with
    | none =>
      simp only [runBatchAux, hg] at hq
      exact ih _ (fun k hk => hp k (List.mem_cons_of_mem _ hk)) q hq
    | some job =>
      simp only [runBatchAux, hg] at hq
      rcases List.mem_cons.mp hq with rfl | hq1
      · exact completeJob_fst_not_error sub total job.1 job.2 st
          (hp i (List.mem_cons_self i p) job hg)
      · exact ih _ (fun k hk => hp k (List.mem_cons_of_mem _ hk)) q hq1

/-- If some processed job rejected, some settled pair is an error. -/
theorem runBatchAux_mem_error (sub : Option Subscriber) (total : Nat)
    (bs : List (String × JobPre)) :
    ∀ (p : List Nat) (st : St) (k : Nat) (j : String × JobPre) (e : String),
      k ∈ p → bs.get? k = some j → j.2 = .reject e →
      ∃ q ∈ (runBatchAux sub total bs p st).1, q.2 = Except.error e := by
  intro p
  induction p with
  | nil => intro st k j e hk; simp at hk
  | cons i p ih =>
    intro st k j e hk hj hrej
    by_cases hik : i = k
    · subst hik
      simp only [runBatchAux, hj]
      refine ⟨(i, (completeJob sub total j.1 j.2 st).1), List.mem_cons_self _ _, ?_⟩
      rw [hrej]
      rfl
    · have hk1 : k ∈ p := by
        rcases List.mem_cons.mp hk with h | h
        · exact absurd h.symm hik
        · exact h
      cases hg : bs.get? i with
      | none =>
        simp only [runBatchAux, hg]
        exact ih _ k j e hk1 hj hrej
      | some job =>
        simp only [runBatchAux, hg]
        obtain ⟨q, hq, hqe⟩ := ih (completeJob sub total job.1 job.2 st).2 k j e hk1 hj hrej
        exact ⟨q, List.mem_cons_of_mem _ hq, hqe⟩

/-- Reading the pure outcomes off all positions in order gives the mapped
batch. -/
theorem map_pureAt_range (bs : List (String × JobPre)) :
    (List.range bs.length).map (pureAt bs) = bs.map (fun j => pureOutcome j.2) := by
  induction bs with
  | nil => rfl
  | cons j t ih =>
    have h1 : List.range (j :: t).length = 0 :: (List.range t.length).map Nat.succ :=
      List.range_succ_eq_map t.length
    rw [h1, List.map_cons, List.map_map, List.map_cons]
    have h2 : ∀ i ∈ List.range t.length, (pureAt (j :: t) ∘ Nat.succ) i = pureAt t i := by
      intro i _
      show pureAt (j :: t) (i + 1) = pureAt t i
      unfold pureAt
      rw [List.get?_cons_succ]
    exact congrArg (List.cons (pureOutcome j.2)) (by rw [List.map_congr_left h2]; exact ih)

/-- Looking up a tagged value in a position-tagged map. -/
theorem find?_pairs {β : Type} (g : Nat → β) :
    ∀ (p : List Nat) (i : Nat), i ∈ p →
      (p.map (fun k => (k, g k))).find? (fun q => q.1 == i) = some (i, g i) := by
  intro p
  induction p with
  | nil => intro i hi; simp at hi
  | cons k p ih =>
    intro i hi
    by_cases hk : k = i
    · subst hk
      rw [List.map_cons]
      exact List.find?_cons_of_pos _ (by simp)
    · have hip : i ∈ p := by
        rcases List.mem_cons.mp hi with h | h
        · exact absurd h.symm hk
        · exact h
      rw [List.map_cons, List.find?_cons_of_neg _ (by simp [hk])]
      exact ih i hip

/-- When every settled pair is `ok`, `Promise.all` does not reject. -/
theorem firstError_none (pairs : List (Nat × Except String (Option (List Listing))))
    (h : ∀ q ∈ pairs, ∃ v, q.2 = Except.ok v) : firstError pairs = none := by
  unfold firstError
  have hnil : pairs.filterMap
      (fun q => match q.2 with | .error e => some e | .ok _ => none) = [] := by
    rw [List.filterMap_eq_nil_iff]
    intro q hq
    obtain ⟨v, hv⟩ := h q hq
    rw [hv]
  rw [hnil]
  rfl

/-- When some settled pair is an error, `Promise.all` rejects. -/
theorem firstError_isSome (pairs : List (Nat × Except String (Option (List Listing))))
    (e : String) (q : Nat × Except String (Option (List Listing)))
    (hq : q ∈ pairs) (he : q.2 = .error e) : (firstError pairs).isSome = true := by
  unfold firstError
  rw [List.head?_isSome]
  exact List.ne_nil_of_mem (List.mem_filterMap.mpr ⟨q, hq, by rw [he]⟩)

/-- A batch with no rejecting job and a non-throwing subscriber resolves to
the pure outcomes in submission order. -/
theorem runBatch_ok (sub : Option Subscriber) (hsub : SubOK sub) (total : Nat)
    (bs : List (String × JobPre)) (p : List Nat) (st : St)
    (hnr : ∀ j ∈ bs, isReject j.2 = false)
    (hperm : p.Perm (List.range bs.length)) :
    (runBatch sub total bs p st).1 = .ok (bs.map (fun j => pureOutcome j.2)) := by
  have hp : ∀ i ∈ p, i < bs.length := fun i hi =>
    List.mem_range.mp (hperm.mem_iff.mp hi)
  have hpairs := runBatchAux_pairs sub hsub total bs p st hp
  have hgetsome : ∀ i, i < bs.length → ∃ j, bs.get? i = some j ∧ isReject j.2 = false := by
    intro i hi
    cases hg : bs.get? i with
    | none => exact absurd (List.get?_eq_none.mp hg) (by omega)
    | some j => exact ⟨j, rfl, hnr j (List.get?_mem hg)⟩
  have hfe : firstError (runBatchAux sub total bs p st).1 = none := by
    rw [hpairs]
    apply firstError_none
    intro q hq
    obtain ⟨i, hip, rfl⟩ := List.mem_map.mp hq
    obtain ⟨j, hj, hrej⟩ := hgetsome i (hp i hip)
    refine ⟨pureOutcome j.2, ?_⟩
    show outAt bs i = _
    unfold outAt
    rw [hj]
    exact jobExcOutcome_ok j.2 hrej
  simp only [runBatch, hfe]
  congr 1
  rw [hpairs]
  have hlook : ∀ i ∈ List.range bs.length,
      lookupOutcome (p.map (fun k => (k, outAt bs k))) i = pureAt bs i := by
    intro i hi
    have hip : i ∈ p := hperm.mem_iff.mpr hi
    unfold lookupOutcome
    rw [find?_pairs (outAt bs) p i hip]
    obtain ⟨j, hj, hrej⟩ := hgetsome i (List.mem_range.mp hi)
    have hout : outAt bs i = .ok (pureOutcome j.2) := by
      unfold outAt
      rw [hj]
      exact jobExcOutcome_ok j.2 hrej
    rw [hout]
    unfold pureAt
    rw [hj]
  rw [List.map_congr_left hlook]
  exact map_pureAt_range bs

/-- A batch with no rejecting job resolves (to something of the batch's
length), for any subscriber behaviour. -/
theorem runBatch_ok_len (sub : Option Subscriber) (total : Nat)
    (bs : List (String × JobPre)) (p : List Nat) (st : St)
    (hnr : ∀ j ∈ bs, isReject j.2 = false) :
    ∃ outs, (runBatch sub total bs p st).1 = .ok outs ∧ outs.length = bs.length := by
  have hfe : firstError (runBatchAux sub total bs p st).1 = none := by
    apply firstError_none
    exact runBatchAux_all_ok sub total bs p st
      (fun i hi j hj => hnr j (List.get?_mem hj))
  simp only [runBatch, hfe]
  exact ⟨_, rfl, by rw [List.length_map, List.length_range]⟩

/-- A batch containing a rejecting job rejects. -/
theorem runBatch_error (sub : Option Subscriber) (total : Nat)
    (bs : List (String × JobPre)) (p : List Nat) (st : St)
    (j : String × JobPre) (e : String) (hj : j ∈ bs) (hrej : j.2 = .reject e)
    (hperm : p.Perm (List.range bs.length)) :
    ∃ e1, (runBatch sub total bs p st).1 = .error e1 := by
  obtain ⟨k, hk⟩ := List.mem_iff_get?.mp hj
  have hkp : k ∈ p := by
    apply hperm.mem_iff.mpr
    rw [List.mem_range]
    by_contra hlt
    rw [not_lt] at hlt
    rw [(List.get?_eq_none).mpr hlt] at hk
    cases hk
  obtain ⟨q, hq, hqe⟩ := runBatchAux_mem_error sub total bs p st k j e hkp hk hrej
  have hsome := firstError_isSome (runBatchAux sub total bs p st).1 e q hq hqe
  obtain ⟨e1, he1⟩ := Option.isSome_iff_exists.mp hsome
  refine ⟨e1, ?_⟩
  simp only [runBatch, he1]

/-- The counter advances by the batch's length when no job rejects. -/
theorem runBatch_counter (sub : Option Subscriber) (total : Nat)
    (bs : List (String × JobPre)) (p : List Nat) (st : St)
    (hnr : ∀ j ∈ bs, isReject j.2 = false)
    (hperm : p.Perm (List.range bs.length)) :
    (runBatch sub total bs p st).2.counter = st.counter + bs.length := by
  have hp : ∀ i ∈ p, i < bs.length := fun i hi =>
    List.mem_range.mp (hperm.mem_iff.mp hi)
  have hcnt := runBatchAux_counter sub total bs p st (by
    intro i hi
    cases hg : bs.get? i with
    | none => exact absurd (List.get?_eq_none.mp hg) (by have := hp i hi; omega)
    | some j => exact ⟨j, rfl, hnr j (List.get?_mem hg)⟩)
  have hlen : p.length = bs.length := by
    rw [hperm.length_eq, List.length_range]
  simp only [runBatch]
  split <;> rw [hcnt, hlen]

/-- The events of a batch grow by one per emitting job of the batch. -/
theorem runBatch_events_length (sub : Option Subscriber) (total : Nat)
    (bs : List (String × JobPre)) (p : List Nat) (st : St)
    (hperm : p.Perm (List.range bs.length)) :
    (runBatch sub total bs p st).2.events.length =
      st.events.length + bs.countP (fun j => emitsWith (Option.isSome sub) j.2) := by
  have hlen := runBatchAux_events_length sub total bs p st
  have hseq : (p.filterMap bs.get?).Perm bs := by
    have h1 : (p.filterMap bs.get?).Perm ((List.range bs.length).filterMap bs.get?) :=
      hperm.filterMap bs.get?
    rw [filterMap_get?_range bs] at h1
    exact h1
  have hcount := hseq.countP_eq (fun j => emitsWith (Option.isSome sub) j.2)
  simp only [runBatch]
  split <;> rw [hlen, hcount]

/-- A batch preserves the event invariant. -/
theorem runBatch_inv (sub : Option Subscriber) (total : Nat)
    (bs : List (String × JobPre)) (p : List Nat) (st : St)
    (h : EventsInv total st) : EventsInv total (runBatch sub total bs p st).2 := by
  have := runBatchAux_inv sub total bs p st h
  simp only [runBatch]
  split <;> exact this

/-! ### Properties of the whole batch loop -/

/-- Under a valid schedule with no rejecting job and a non-throwing
subscriber, the batch loop resolves to the pure outcomes of all jobs in
submission order, and the final counter counts every job. -/
theorem runBatches_ok (sub : Option Subscriber) (hsub : SubOK sub) (total : Nat)
    (batches : List (List (String × JobPre))) (sched : List (List Nat)) (st : St)
    (hval : List.Forall₂ (fun bs p => p.Perm (List.range bs.length)) batches sched)
    (hnr : ∀ j ∈ batches.flatten, isReject j.2 = false) :
    (runBatches sub total batches sched st).1 =
      .ok (batches.flatten.map (fun j => pureOutcome j.2)) ∧
    (runBatches sub total batches sched st).2.counter =
      st.counter + batches.flatten.length := by
  induction hval generalizing st with
  | nil => exact ⟨rfl, by simp [runBatches]⟩
  | @cons bs p batches1 sched1 hbp hrest ih =>
    have hnr1 : ∀ j ∈ bs, isReject j.2 = false := fun j hj =>
      hnr j (by rw [List.flatten_cons]; exact List.mem_append_left _ hj)
    have hnr2 : ∀ j ∈ batches1.flatten, isReject j.2 = false := fun j hj =>
      hnr j (by rw [List.flatten_cons]; exact List.mem_append_right _ hj)
    have hok := runBatch_ok sub hsub total bs p st hnr1 hbp
    have hcnt := runBatch_counter sub total bs p st hnr1 hbp
    obtain ⟨ih1, ih2⟩ := ih (runBatch sub total bs p st).2 hnr2
    simp only [runBatches, List.headD_cons, List.tail_cons, hok, ih1]
    constructor
    · rw [List.flatten_cons, List.map_append]
    · rw [ih2, hcnt, List.flatten_cons, List.length_append]
      omega

/-- The batch loop preserves the event invariant, for any schedule and any
subscriber behaviour. -/
theorem runBatches_inv (sub : Option Subscriber) (total : Nat) :
    ∀ (batches : List (List (String × JobPre))) (sched : List (List Nat)) (st : St),
      EventsInv total st → EventsInv total (runBatches sub total batches sched st).2 := by
  intro batches
  induction batches with
  | nil => intro sched st h; exact h
  | cons bs rest ih =>
    intro sched st h
    have h1 : EventsInv total (runBatch sub total bs (sched.headD []) st).2 :=
      runBatch_inv sub total bs (sched.headD []) st h
    have h2 := ih sched.tail (runBatch sub total bs (sched.headD []) st).2 h1
    cases hr1 : (runBatch sub total bs (sched.headD []) st).1 with
    | error e => simp only [runBatches, hr1]; exact h1
    | ok outs =>
      cases hr2 : (runBatches sub total rest sched.tail
          (runBatch sub total bs (sched.headD []) st).2).1 with
      | error e => simp only [runBatches, hr1, hr2]; exact h2
      | ok outs2 => simp only [runBatches, hr1, hr2]; exact h2

/-- Under a valid schedule with no rejecting job, the total number of
delivered events is the number of emitting jobs, for any subscriber
behaviour. -/
theorem runBatches_events_length (sub : Option Subscriber) (total : Nat)
    (batches : List (List (String × JobPre))) (sched : List (List Nat)) (st : St)
    (hval : List.Forall₂ (fun bs p => p.Perm (List.range bs.length)) batches sched)
    (hnr : ∀ j ∈ batches.flatten, isReject j.2 = false) :
    (runBatches sub total batches sched st).2.events.length =
      st.events.length +
        batches.flatten.countP (fun j => emitsWith (Option.isSome sub) j.2) := by
  induction hval generalizing st with
  | nil => simp [runBatches]
  | @cons bs p batches1 sched1 hbp hrest ih =>
    have hnr1 : ∀ j ∈ bs, isReject j.2 = false := fun j hj =>
      hnr j (by rw [List.flatten_cons]; exact List.mem_append_left _ hj)
    have hnr2 : ∀ j ∈ batches1.flatten, isReject j.2 = false := fun j hj =>
      hnr j (by rw [List.flatten_cons]; exact List.mem_append_right _ hj)
    obtain ⟨outs, houts, _⟩ := runBatch_ok_len sub total bs p st hnr1
    have hev := runBatch_events_length sub total bs p st hbp
    have ihev := ih (runBatch sub total bs p st).2 hnr2
    cases hr2 : (runBatches sub total batches1 sched1 (runBatch sub total bs p st).2).1 with
    | error e =>
      simp only [runBatches, List.headD_cons, List.tail_cons, houts, hr2]
      rw [ihev, hev, List.flatten_cons, List.countP_append]
      omega
    | ok outs2 =>
      simp only [runBatches, List.headD_cons, List.tail_cons, houts, hr2]
      rw [ihev, hev, List.flatten_cons, List.countP_append]
      omega

/-- Under a valid schedule, a run containing a rejecting job rejects. -/
theorem runBatches_error (sub : Option Subscriber) (total : Nat)
    (batches : List (List (String × JobPre))) (sched : List (List Nat)) (st : St)
    (hval : List.Forall₂ (fun bs p => p.Perm (List.range bs.length)) batches sched)
    (j : String × JobPre) (e : String) (hj : j ∈ batches.flatten) (hrej : j.2 = .reject e) :
    ∃ e1, (runBatches sub total batches sched st).1 = .error e1 := by
  induction hval generalizing st with
  | nil => simp at hj
  | @cons bs p batches1 sched1 hbp hrest ih =>
    rw [List.flatten_cons, List.mem_append] at hj
    by_cases hbs : ∃ jb ∈ bs, isReject jb.2 = true
    · obtain ⟨jb, hjb, hjbrej⟩ := hbs
      obtain ⟨eb, heb⟩ : ∃ eb, jb.2 = .reject eb := by
        cases hjb2 : jb.2 with
        | reject e2 => exact ⟨e2, rfl⟩
        | caught e2 => rw [hjb2] at hjbrej; simp [isReject] at hjbrej
        | finished xs => rw [hjb2] at hjbrej; simp [isReject] at hjbrej
      obtain ⟨e1, he1⟩ := runBatch_error sub total bs p st jb eb hjb heb hbp
      exact ⟨e1, by simp only [runBatches, List.headD_cons, List.tail_cons, he1]⟩
    · have hnr1 : ∀ jb ∈ bs, isReject jb.2 = false := by
        intro jb hjb
        cases hb : isReject jb.2 with
        | false => rfl
        | true => exact absurd ⟨jb, hjb, hb⟩ hbs
      have hj1 : j ∈ batches1.flatten := by
        rcases hj with hja | hjb2
        · exfalso
          have hh := hnr1 j hja
          rw [hrej] at hh
          simp [isReject] at hh
        · exact hjb2
      obtain ⟨outs, houts, _⟩ := runBatch_ok_len sub total bs p st hnr1
      obtain ⟨e1, he1⟩ := ih (runBatch sub total bs p st).2 hj1
      exact ⟨e1, by simp only [runBatches, List.headD_cons, List.tail_cons, houts, he1]⟩

/-- Under a valid schedule with no rejecting job, the final counter counts
every job, for any subscriber behaviour. -/
theorem runBatches_counter (sub : Option Subscriber) (total : Nat)
    (batches : List (List (String × JobPre))) (sched : List (List Nat)) (st : St)
    (hval : List.Forall₂ (fun bs p => p.Perm (List.range bs.length)) batches sched)
    (hnr : ∀ j ∈ batches.flatten, isReject j.2 = false) :
    (runBatches sub total batches sched st).2.counter =
      st.counter + batches.flatten.length := by
  induction hval generalizing st with
  | nil => simp [runBatches]
  | @cons bs p batches1 sched1 hbp hrest ih =>
    have hnr1 : ∀ j ∈ bs, isReject j.2 = false := fun j hj =>
      hnr j (by rw [List.flatten_cons]; exact List.mem_append_left _ hj)
    have hnr2 : ∀ j ∈ batches1.flatten, isReject j.2 = false := fun j hj =>
      hnr j (by rw [List.flatten_cons]; exact List.mem_append_right _ hj)
    obtain ⟨outs, houts, _⟩ := runBatch_ok_len sub total bs p st hnr1
    have hcnt := runBatch_counter sub total bs p st hnr1 hbp
    have ihc := ih (runBatch sub total bs p st).2 hnr2
    cases hr2 : (runBatches sub total batches1 sched1 (runBatch sub total bs p st).2).1 with
    | error e =>
      simp only [runBatches, List.headD_cons, List.tail_cons, houts, hr2]
      rw [ihc, hcnt, List.flatten_cons, List.length_append]
      omega
    | ok outs2 =>
      simp only [runBatches, List.headD_cons, List.tail_cons, houts, hr2]
      rw [ihc, hcnt, List.flatten_cons, List.length_append]
      omega

/-- Under a valid schedule with no rejecting job the batch loop resolves,
with one outcome per job, for any subscriber behaviour. -/
theorem runBatches_ok_len (sub : Option Subscriber) (total : Nat)
    (batches : List (List (String × JobPre))) (sched : List (List Nat)) (st : St)
    (hval : List.Forall₂ (fun bs p => p.Perm (List.range bs.length)) batches sched)
    (hnr : ∀ j ∈ batches.flatten, isReject j.2 = false) :
    ∃ outs, (runBatches sub total batches sched st).1 = .ok outs ∧
      outs.length = batches.flatten.length := by
  induction hval generalizing st with
  | nil => exact ⟨[], rfl, by simp⟩
  | @cons bs p batches1 sched1 hbp hrest ih =>
    have hnr1 : ∀ j ∈ bs, isReject j.2 = false := fun j hj =>
      hnr j (by rw [List.flatten_cons]; exact List.mem_append_left _ hj)
    have hnr2 : ∀ j ∈ batches1.flatten, isReject j.2 = false := fun j hj =>
      hnr j (by rw [List.flatten_cons]; exact List.mem_append_right _ hj)
    obtain ⟨outs, houts, hlen⟩ := runBatch_ok_len sub total bs p st hnr1
    obtain ⟨outs2, houts2, hlen2⟩ := ih (runBatch sub total bs p st).2 hnr2
    refine ⟨outs ++ outs2, ?_, ?_⟩
    · simp only [runBatches, List.headD_cons, List.tail_cons, houts, houts2]
    · rw [List.length_append, hlen, hlen2, List.flatten_cons, List.length_append]

/-! ### Subscriber independence (progress is a pure side channel when the
subscriber does not throw) -/

/-- A non-throwing subscriber does not change a completion's settled value or
counter effect. -/
theorem completeJob_indep (s : Subscriber) (hs : ∀ ev, s.throwsOn ev = false)
    (total : Nat) (name : String) (pre : JobPre) (st1 st2 : St)
    (hc : st1.counter = st2.counter) :
    (completeJob (some s) total name pre st1).1 = (completeJob none total name pre st2).1 ∧
    (completeJob (some s) total name pre st1).2.counter =
      (completeJob none total name pre st2).2.counter := by
  have hsub1 : SubOK (some s) := fun ev => hs ev
  have hsub2 : SubOK none := fun ev => rfl
  constructor
  · rw [completeJob_fst_ok _ hsub1, completeJob_fst_ok _ hsub2]
  · rw [completeJob_counter, completeJob_counter, hc]

/-- A non-throwing subscriber does not change the settled pairs or the
counter of a batch fold. -/
theorem runBatchAux_indep (s : Subscriber) (hs : ∀ ev, s.throwsOn ev = false)
    (total : Nat) (bs : List (String × JobPre)) :
    ∀ (p : List Nat) (st1 st2 : St), st1.counter = st2.counter →
      (runBatchAux (some s) total bs p st1).1 = (runBatchAux none total bs p st2).1 ∧
      (runBatchAux (some s) total bs p st1).2.counter =
        (runBatchAux none total bs p st2).2.counter := by
  intro p
  induction p with
  | nil => intro st1 st2 hc; exact ⟨rfl, hc⟩
  | cons i p ih =>
    intro st1 st2 hc
    cases hg : bs.get? i with
    | none => simp only [runBatchAux, hg]; exact ih st1 st2 hc
    | some job =>
      simp only [runBatchAux, hg]
      obtain ⟨h1, h2⟩ := completeJob_indep s hs total job.1 job.2 st1 st2 hc
      obtain ⟨h3, h4⟩ := ih _ _ h2
      exact ⟨by rw [h1, h3], h4⟩

/-- A non-throwing subscriber does not change a batch's resolved value or
counter. -/
theorem runBatch_indep (s : Subscriber) (hs : ∀ ev, s.throwsOn ev = false)
    (total : Nat) (bs : List (String × JobPre)) (p : List Nat) (st1 st2 : St)
    (hc : st1.counter = st2.counter) :
    (runBatch (some s) total bs p st1).1 = (runBatch none total bs p st2).1 ∧
    (runBatch (some s) total bs p st1).2.counter =
      (runBatch none total bs p st2).2.counter := by
  obtain ⟨h1, h2⟩ := runBatchAux_indep s hs total bs p st1 st2 hc
  simp only [runBatch, h1]
  split <;> exact ⟨rfl, h2⟩

/-- A non-throwing subscriber does not change the batch loop's resolved value
or final counter (the aggregate and per-job outcomes are subscriber-blind). -/
theorem runBatches_indep (s : Subscriber) (hs : ∀ ev, s.throwsOn ev = false)
    (total : Nat) :
    ∀ (batches : List (List (String × JobPre))) (sched : List (List Nat)) (st1 st2 : St),
      st1.counter = st2.counter →
      (runBatches (some s) total batches sched st1).1 =
        (runBatches none total batches sched st2).1 ∧
      (runBatches (some s) total batches sched st1).2.counter =
        (runBatches none total batches sched st2).2.counter := by
  intro batches
  induction batches with
  | nil => intro sched st1 st2 hc; exact ⟨rfl, hc⟩
  | cons bs rest ih =>
    intro sched st1 st2 hc
    obtain ⟨h1, h2⟩ := runBatch_indep s hs total bs (sched.headD []) st1 st2 hc
    obtain ⟨h3, h4⟩ := ih sched.tail _ _ h2
    cases hr : (runBatch none total bs (sched.headD []) st2).1 with
    | error e =>
      rw [hr] at h1
      exact ⟨by simp only [runBatches, h1, hr], by simp only [runBatches, h1, hr]; exact h2⟩
    | ok outs =>
      rw [hr] at h1
      cases hr2 : (runBatches none total rest sched.tail
          (runBatch none total bs (sched.headD []) st2).2).1 with
      | error e =>
        rw [hr2] at h3
        exact ⟨by simp only [runBatches, h1, hr, h3, hr2],
               by simp only [runBatches, h1, hr, h3, hr2]; exact h4⟩
      | ok outs2 =>
        rw [hr2] at h3
        exact ⟨by simp only [runBatches, h1, hr, h3, hr2],
               by simp only [runBatches, h1, hr, h3, hr2]; exact h4⟩

/-! ### The aggregation loop -/

/-- The final aggregation is the flat concatenation, in submission order, of
the non-null per-site results. -/
theorem aggregate_eq_flatten (outs : List (Option (List Listing))) :
    aggregate outs = (outs.filterMap id).flatten := by
  suffices h : ∀ acc : List Listing,
      outs.foldl (fun acc o => match o with | some xs => acc ++ xs | none => acc) acc =
        acc ++ (outs.filterMap id).flatten by
    simpa using h []
  induction outs with
  | nil => intro acc; simp
  | cons o t ih =>
    intro acc
    cases o with
    | none => simpa [List.filterMap_cons] using ih acc
    | some xs => simp [List.filterMap_cons, List.foldl_cons, ih, List.append_assoc]

/-! ### The orchestration entry point -/

/-- `scrapeAllSites` result projection. -/
theorem scrape_result_def (env : String → Option String) (sub : Option Subscriber)
    (sites : List (SiteSpec × Behaviour)) (K : Nat) (sched : List (List Nat)) :
    (scrapeAllSitesModel env sub sites K sched).result =
      ((runBatches sub sites.length (chunksOf K (siteJobs env sites)) sched
        ⟨0, []⟩).1).map aggregate := rfl

/-- `scrapeAllSites` outcomes projection. -/
theorem scrape_outcomes_def (env : String → Option String) (sub : Option Subscriber)
    (sites : List (SiteSpec × Behaviour)) (K : Nat) (sched : List (List Nat)) :
    (scrapeAllSitesModel env sub sites K sched).outcomes =
      (runBatches sub sites.length (chunksOf K (siteJobs env sites)) sched ⟨0, []⟩).1 := rfl

/-- `scrapeAllSites` events projection. -/
theorem scrape_events_def (env : String → Option String) (sub : Option Subscriber)
    (sites : List (SiteSpec × Behaviour)) (K : Nat) (sched : List (List Nat)) :
    (scrapeAllSitesModel env sub sites K sched).events =
      (runBatches sub sites.length (chunksOf K (siteJobs env sites)) sched ⟨0, []⟩).2.events :=
  rfl

/-- `scrapeAllSites` counter projection. -/
theorem scrape_count_def (env : String → Option String) (sub : Option Subscriber)
    (sites : List (SiteSpec × Behaviour)) (K : Nat) (sched : List (List Nat)) :
    (scrapeAllSitesModel env sub sites K sched).finalCount =
      (runBatches sub sites.length (chunksOf K (siteJobs env sites)) sched ⟨0, []⟩).2.counter :=
  rfl

/-- With a positive batch size, a valid schedule, no page-creation failure
and a non-throwing subscriber, a run returns the pure per-job outcomes in
submission order, the flat aggregate over them, and counts every site. -/
theorem scrape_ok (env : String → Option String) (sub : Option Subscriber)
    (sites : List (SiteSpec × Behaviour)) (K : Nat) (sched : List (List Nat))
    (hK : 0 < K) (hsub : SubOK sub)
    (hval : ValidSched K (siteJobs env sites) sched)
    (hnr : NoReject (siteJobs env sites)) :
    (scrapeAllSitesModel env sub sites K sched).outcomes =
      .ok ((siteJobs env sites).map (fun j => pureOutcome j.2)) ∧
    (scrapeAllSitesModel env sub sites K sched).result =
      .ok ((((siteJobs env sites).map (fun j => pureOutcome j.2)).filterMap id).flatten) ∧
    (scrapeAllSitesModel env sub sites K sched).finalCount = sites.length := by
  have hglue : (chunksOf K (siteJobs env sites)).flatten = siteJobs env sites :=
    chunksOf_flatten K hK _
  have hnr1 : ∀ j ∈ (chunksOf K (siteJobs env sites)).flatten, isReject j.2 = false := by
    rw [hglue]; exact hnr
  obtain ⟨h1, h2⟩ := runBatches_ok sub hsub sites.length
    (chunksOf K (siteJobs env sites)) sched ⟨0, []⟩ hval hnr1
  rw [hglue] at h1 h2
  refine ⟨?_, ?_, ?_⟩
  · rw [scrape_outcomes_def, h1]
  · rw [scrape_result_def, h1]
    show Except.ok (aggregate _) = _
    rw [aggregate_eq_flatten]
  · rw [scrape_count_def, h2]
    simp [siteJobs]

/-- A job whose page creation fails is a rejected promise. -/
theorem jobPre_reject (creds : Option LoginCredentials) (s : SiteSpec) (b : Behaviour)
    (e : String) (h : b.newPage = .error e) : jobPre creds s b = .reject e := by
  unfold jobPre
  rw [h]

/-- The group barrier: with a valid schedule, every job of an earlier batch
finishes before any job of a later batch starts. -/
theorem runTrace_barrier (jobs : List (String × JobPre)) (K : Nat)
    (sched : List (List Nat)) (hval : ValidSched K jobs sched) :
    ∀ (bi bj : Nat) (Bi Bj : List (Nat × (String × JobPre)))
      (a b : Nat × (String × JobPre)), bi < bj →
      (chunksOf K jobs.enum).get? bi = some Bi →
      (chunksOf K jobs.enum).get? bj = some Bj →
      a ∈ Bi → b ∈ Bj →
      [TraceEv.finish a.1, TraceEv.start b.1].Sublist (runTrace jobs K sched) := by
  intro bi bj Bi Bj a b hij hBi hBj ha hb
  have hlen : (chunksOf K jobs).map List.length = (chunksOf K jobs.enum).map List.length := by
    unfold chunksOf
    rw [List.enum_length]
    exact chunksOfAux_map_length K jobs.length jobs jobs.enum (List.enum_length).symm
  have hvalE := validSched_transfer hlen hval
  obtain ⟨pi, hpi, hpermi⟩ := forall₂_get? hvalE hBi
  obtain ⟨pj, hpj, hpermj⟩ := forall₂_get? hvalE hBj
  have hLbi : (List.zipWith batchTrace (chunksOf K jobs.enum) sched).get? bi =
      some (batchTrace Bi pi) := by
    rw [List.get?_zipWith, hBi, hpi]
  have hLbj : (List.zipWith batchTrace (chunksOf K jobs.enum) sched).get? bj =
      some (batchTrace Bj pj) := by
    rw [List.get?_zipWith, hBj, hpj]
  have hxa : TraceEv.finish a.1 ∈ batchTrace Bi pi := by
    unfold batchTrace
    apply List.mem_append_right
    apply List.mem_map.mpr
    refine ⟨a, ?_, rfl⟩
    obtain ⟨k, hk⟩ := List.mem_iff_get?.mp ha
    apply List.mem_filterMap.mpr
    refine ⟨k, ?_, hk⟩
    apply hpermi.mem_iff.mpr
    rw [List.mem_range]
    by_contra hnot
    rw [not_lt] at hnot
    rw [List.get?_eq_none.mpr hnot] at hk
    cases hk
  have hxb : TraceEv.start b.1 ∈ batchTrace Bj pj := by
    unfold batchTrace
    exact List.mem_append_left _ (List.mem_map.mpr ⟨b, hb, rfl⟩)
  exact pair_sublist_flatten _ bi bj _ _ _ _ hij hLbi hLbj hxa hxb

/-! ### Claim C1 -/

/-- C1, amended: the final value returned by the orchestration entry point
(`scrapeAllSites`) is only a flat list of items — `Except.ok` of the
concatenation, in submission order, of the non-null per-job results.  It
contains no `perSourceStatus` mapping; per-source status is not part of the
returned aggregate. -/
theorem C1_flat_aggregate (env : String → Option String) (sub : Option Subscriber)
    (sites : List (SiteSpec × Behaviour)) (K : Nat) (sched : List (List Nat))
    (hK : 0 < K) (hsub : SubOK sub)
    (hval : ValidSched K (siteJobs env sites) sched)
    (hnr : NoReject (siteJobs env sites)) :
    (scrapeAllSitesModel env sub sites K sched).result =
      .ok ((((siteJobs env sites).map (fun j => pureOutcome j.2)).filterMap id).flatten) ∧
    (scrapeAllSitesModel env sub sites K sched).outcomes =
      .ok ((siteJobs env sites).map (fun j => pureOutcome j.2)) :=
  ⟨(scrape_ok env sub sites K sched hK hsub hval hnr).2.1,
   (scrape_ok env sub sites K sched hK hsub hval hnr).1⟩

/-- C1, counterexample to the claim as stated: two runs in which the sole
source has different per-source statuses (failed with an error vs. empty by
skip) return identical aggregates, so the returned aggregate contains no
per-source status entry distinguishing `failed` from `empty`. -/
theorem C1_counterexample :
    (scrapeAllSitesModel envAll none [(carwowSpec, failLoginBehaviour)] 2 [[0]]).result =
      (scrapeAllSitesModel envAll none [(carwowSpec, okBehaviour [])] 2 [[0]]).result ∧
    (scrapeAllSitesModel envAll none [(carwowSpec, failLoginBehaviour)] 2 [[0]]).outcomes ≠
      (scrapeAllSitesModel envAll none [(carwowSpec, okBehaviour [])] 2 [[0]]).outcomes := by
  decide

/-- C1, witness: the amended theorem applied to a concrete two-site run. -/
theorem C1_witness :
    (0 < 2 ∧
      ValidSched 2 (siteJobs envAll sitesW) [[0, 1]] ∧ NoReject (siteJobs envAll sitesW)) ∧
    ((scrapeAllSitesModel envAll none sitesW 2 [[0, 1]]).result =
      .ok ((((siteJobs envAll sitesW).map (fun j => pureOutcome j.2)).filterMap id).flatten) ∧
    (scrapeAllSitesModel envAll none sitesW 2 [[0, 1]]).outcomes =
      .ok ((siteJobs envAll sitesW).map (fun j => pureOutcome j.2))) :=
  ⟨⟨by decide, by decide, by decide⟩,
   C1_flat_aggregate envAll none sitesW 2 [[0, 1]] (by decide) (fun _ => rfl)
     (by decide) (by decide)⟩

/-! ### Claim C2 -/

/-- C2, amended: with a registered subscriber, exactly one progress event is
emitted per job whose extraction produced a non-null result (successful or
skipped); jobs that fail, and jobs without an `extractCars` function, emit no
event.  Each emitted event carries `totalJobs = N`; the emitted ordinals are
strictly increasing in completion order — hence pairwise distinct — and lie
in `1..N`. -/
theorem C2_progress_events (env : String → Option String) (s : Subscriber)
    (sites : List (SiteSpec × Behaviour)) (K : Nat) (sched : List (List Nat))
    (hK : 0 < K) (hval : ValidSched K (siteJobs env sites) sched)
    (hnr : NoReject (siteJobs env sites)) :
    (scrapeAllSitesModel env (some s) sites K sched).events.length =
      (siteJobs env sites).countP (fun j => emitsWith true j.2) ∧
    ((scrapeAllSitesModel env (some s) sites K sched).events.map
      (fun e => e.currentSite)).Pairwise (· < ·) ∧
    ∀ e ∈ (scrapeAllSitesModel env (some s) sites K sched).events,
      e.totalSites = sites.length ∧ 1 ≤ e.currentSite ∧ e.currentSite ≤ sites.length := by
  have hglue : (chunksOf K (siteJobs env sites)).flatten = siteJobs env sites :=
    chunksOf_flatten K hK _
  have hnr1 : ∀ j ∈ (chunksOf K (siteJobs env sites)).flatten, isReject j.2 = false := by
    rw [hglue]; exact hnr
  have hev := runBatches_events_length (some s) sites.length
    (chunksOf K (siteJobs env sites)) sched ⟨0, []⟩ hval hnr1
  have hcnt := runBatches_counter (some s) sites.length
    (chunksOf K (siteJobs env sites)) sched ⟨0, []⟩ hval hnr1
  have hinv := runBatches_inv (some s) sites.length (chunksOf K (siteJobs env sites))
    sched ⟨0, []⟩ ⟨List.Pairwise.nil, fun e he => absurd he (List.not_mem_nil e)⟩
  rw [hglue] at hev hcnt
  refine ⟨?_, ?_, ?_⟩
  · rw [scrape_events_def, hev]
    simp
  · rw [scrape_events_def]
    exact hinv.1
  · intro e he
    rw [scrape_events_def] at he
    obtain ⟨h1, h2, h3⟩ := hinv.2 e he
    refine ⟨h1, h2, h3.trans ?_⟩
    rw [hcnt]
    simp [siteJobs]

/-- C2, counterexample to the claim as stated: a run whose only job fails
emits zero progress events, not one per job. -/
theorem C2_counterexample :
    (scrapeAllSitesModel envAll (some alwaysOkSub)
        [(carwowSpec, failLoginBehaviour)] 2 [[0]]).events.length ≠
      [(carwowSpec, failLoginBehaviour)].length := by
  decide

/-- C2, witness: the amended theorem applied to a concrete two-site run. -/
theorem C2_witness :
    (0 < 2 ∧ ValidSched 2 (siteJobs envAll sitesW) [[0, 1]] ∧
      NoReject (siteJobs envAll sitesW)) ∧
    ((scrapeAllSitesModel envAll (some alwaysOkSub) sitesW 2 [[0, 1]]).events.length =
      (siteJobs envAll sitesW).countP (fun j => emitsWith true j.2) ∧
    ((scrapeAllSitesModel envAll (some alwaysOkSub) sitesW 2 [[0, 1]]).events.map
      (fun e => e.currentSite)).Pairwise (· < ·) ∧
    ∀ e ∈ (scrapeAllSitesModel envAll (some alwaysOkSub) sitesW 2 [[0, 1]]).events,
      e.totalSites = sitesW.length ∧ 1 ≤ e.currentSite ∧ e.currentSite ≤ sitesW.length) :=
  ⟨⟨by decide, by decide, by decide⟩,
   C2_progress_events envAll alwaysOkSub sitesW 2 [[0, 1]] (by decide) (by decide)
     (by decide)⟩

/-! ### Claim C3 -/

/-- C3, amended: if execution-context creation (`context.newPage()`) fails
for any configured site, the failure is not converted into a per-job outcome
— it happens outside the per-job `try`, so the whole orchestration call
rejects with an error and no aggregate is produced. -/
theorem C3_page_failure_rejects (env : String → Option String) (sub : Option Subscriber)
    (sites : List (SiteSpec × Behaviour)) (K : Nat) (sched : List (List Nat))
    (hK : 0 < K) (hval : ValidSched K (siteJobs env sites) sched)
    (s0 : SiteSpec) (b0 : Behaviour) (e : String)
    (hmem : (s0, b0) ∈ sites) (hfail : b0.newPage = .error e) :
    ∃ e1, (scrapeAllSitesModel env sub sites K sched).result = .error e1 ∧
      (scrapeAllSitesModel env sub sites K sched).outcomes = .error e1 := by
  have hj : (s0.name, jobPre (lookupCred env s0.name) s0 b0) ∈ siteJobs env sites :=
    List.mem_map.mpr ⟨(s0, b0), hmem, rfl⟩
  have hjf : (s0.name, jobPre (lookupCred env s0.name) s0 b0) ∈
      (chunksOf K (siteJobs env sites)).flatten := by
    rw [chunksOf_flatten K hK]
    exact hj
  obtain ⟨e1, he1⟩ := runBatches_error sub sites.length (chunksOf K (siteJobs env sites))
    sched ⟨0, []⟩ hval _ e hjf (jobPre_reject (lookupCred env s0.name) s0 b0 e hfail)
  refine ⟨e1, ?_, ?_⟩
  · rw [scrape_result_def, he1]
    rfl
  · rw [scrape_outcomes_def]
    exact he1

/-- C3, counterexample to the claim as stated: a run whose first site's page
creation fails rejects outright with that error — there is no aggregate
covering the remaining jobs. -/
theorem C3_counterexample :
    (scrapeAllSitesModel envAll none
        [(carwowSpec, pageFailBehaviour), (motorwaySpec, okBehaviour [listingA])]
        2 [[0, 1]]).result = Except.error "newPage failed" ∧
    (scrapeAllSitesModel envAll none
        [(carwowSpec, pageFailBehaviour), (motorwaySpec, okBehaviour [listingA])]
        2 [[0, 1]]).outcomes = Except.error "newPage failed" := by
  decide

/-- C3, witness: the amended theorem applied to a concrete run. -/
theorem C3_witness :
    (0 < 2 ∧ ValidSched 2 (siteJobs envAll [(carwowSpec, pageFailBehaviour)]) [[0]] ∧
      (carwowSpec, pageFailBehaviour) ∈ [(carwowSpec, pageFailBehaviour)] ∧
      pageFailBehaviour.newPage = Except.error "newPage failed") ∧
    ∃ e1,
      (scrapeAllSitesModel envAll none [(carwowSpec, pageFailBehaviour)] 2 [[0]]).result =
        .error e1 ∧
      (scrapeAllSitesModel envAll none [(carwowSpec, pageFailBehaviour)] 2 [[0]]).outcomes =
        .error e1 :=
  ⟨⟨by decide, by decide, by decide, rfl⟩,
   C3_page_failure_rejects envAll none [(carwowSpec, pageFailBehaviour)] 2 [[0]]
     (by decide) (by decide) carwowSpec pageFailBehaviour "newPage failed"
     (by decide) rfl⟩

/-! ### Claim C4 -/

/-- C4, amended: any exception raised by an adapter step (login, navigation,
filters, extraction) of one job is caught at the job-runner boundary and
converted into a null outcome for that job only; the run still resolves with
every other site's outcome unchanged.  The failing source's error message,
however, is not preserved in the returned aggregate — null carries no error
detail (the message is only logged). -/
theorem C4_failure_isolation (env : String → Option String) (sub : Option Subscriber)
    (sites : List (SiteSpec × Behaviour)) (K : Nat) (sched : List (List Nat))
    (hK : 0 < K) (hsub : SubOK sub)
    (hval : ValidSched K (siteJobs env sites) sched)
    (hnr : NoReject (siteJobs env sites))
    (i : Nat) (s0 : SiteSpec) (b0 : Behaviour) (e : String)
    (hi : sites.get? i = some (s0, b0))
    (hcaught : jobPre (lookupCred env s0.name) s0 b0 = .caught e) :
    ∃ outs, (scrapeAllSitesModel env sub sites K sched).outcomes = .ok outs ∧
      outs.get? i = some none ∧
      (∀ k, k ≠ i →
        outs.get? k = ((siteJobs env sites).get? k).map (fun j => pureOutcome j.2)) ∧
      (scrapeAllSitesModel env sub sites K sched).result =
        .ok ((((siteJobs env sites).map (fun j => pureOutcome j.2)).filterMap id).flatten) := by
  obtain ⟨h1, h2, -⟩ := scrape_ok env sub sites K sched hK hsub hval hnr
  refine ⟨(siteJobs env sites).map (fun j => pureOutcome j.2), h1, ?_, ?_, h2⟩
  · have hji : (siteJobs env sites).get? i =
        some (s0.name, jobPre (lookupCred env s0.name) s0 b0) := by
      unfold siteJobs
      rw [List.get?_map, hi]
      rfl
    rw [List.get?_map, hji]
    simp [hcaught, pureOutcome]
  · intro k _
    rw [List.get?_map]

/-- C4, counterexample to the error-preservation part of the claim: two runs
whose failing source throws two different errors produce completely identical
observable results (aggregate, outcomes, events, counter) — the error detail
is preserved nowhere. -/
theorem C4_counterexample :
    scrapeAllSitesModel envAll (some alwaysOkSub)
        [(carwowSpec, failLoginBehaviour), (motorwaySpec, okBehaviour [listingA])]
        2 [[0, 1]] =
      scrapeAllSitesModel envAll (some alwaysOkSub)
        [(carwowSpec, failLoginBehaviour2), (motorwaySpec, okBehaviour [listingA])]
        2 [[0, 1]] ∧
    failLoginBehaviour.login ≠ failLoginBehaviour2.login := by
  decide

/-- C4, witness: the amended theorem applied to a concrete run whose first
site's login throws. -/
theorem C4_witness :
    (0 < 2 ∧
      ValidSched 2 (siteJobs envAll
        [(carwowSpec, failLoginBehaviour), (motorwaySpec, okBehaviour [listingA])])
        [[0, 1]] ∧
      NoReject (siteJobs envAll
        [(carwowSpec, failLoginBehaviour), (motorwaySpec, okBehaviour [listingA])]) ∧
      [(carwowSpec, failLoginBehaviour), (motorwaySpec, okBehaviour [listingA])].get? 0 =
        some (carwowSpec, failLoginBehaviour) ∧
      jobPre (lookupCred envAll carwowSpec.name) carwowSpec failLoginBehaviour =
        .caught "login blew up") ∧
    ∃ outs,
      (scrapeAllSitesModel envAll none
        [(carwowSpec, failLoginBehaviour), (motorwaySpec, okBehaviour [listingA])]
        2 [[0, 1]]).outcomes = .ok outs ∧
      outs.get? 0 = some none ∧
      (∀ k, k ≠ 0 →
        outs.get? k = ((siteJobs envAll
          [(carwowSpec, failLoginBehaviour), (motorwaySpec, okBehaviour [listingA])]).get? k).map
          (fun j => pureOutcome j.2)) ∧
      (scrapeAllSitesModel envAll none
        [(carwowSpec, failLoginBehaviour), (motorwaySpec, okBehaviour [listingA])]
        2 [[0, 1]]).result =
        .ok ((((siteJobs envAll
          [(carwowSpec, failLoginBehaviour), (motorwaySpec, okBehaviour [listingA])]).map
            (fun j => pureOutcome j.2)).filterMap id).flatten) :=
  ⟨⟨by decide, by decide, by decide, by decide, by decide⟩,
   C4_failure_isolation envAll none
     [(carwowSpec, failLoginBehaviour), (motorwaySpec, okBehaviour [listingA])]
     2 [[0, 1]] (by decide) (fun _ => rfl) (by decide) (by decide)
     0 carwowSpec failLoginBehaviour "login blew up" (by decide) (by decide)⟩

/-! ### Claim C5 -/

/-- C5, amended: the final aggregate concatenates the successful jobs' item
lists in submission order (the order the sites are configured), not in
completion order: the returned aggregate is the same for every valid
completion schedule. -/
theorem C5_submission_order (env : String → Option String) (sub : Option Subscriber)
    (sites : List (SiteSpec × Behaviour)) (K : Nat) (sched1 sched2 : List (List Nat))
    (hK : 0 < K) (hsub : SubOK sub)
    (hv1 : ValidSched K (siteJobs env sites) sched1)
    (hv2 : ValidSched K (siteJobs env sites) sched2)
    (hnr : NoReject (siteJobs env sites)) :
    (scrapeAllSitesModel env sub sites K sched1).result =
      .ok ((((siteJobs env sites).map (fun j => pureOutcome j.2)).filterMap id).flatten) ∧
    (scrapeAllSitesModel env sub sites K sched1).result =
      (scrapeAllSitesModel env sub sites K sched2).result := by
  obtain ⟨-, h1, -⟩ := scrape_ok env sub sites K sched1 hK hsub hv1 hnr
  obtain ⟨-, h2, -⟩ := scrape_ok env sub sites K sched2 hK hsub hv2 hnr
  exact ⟨h1, by rw [h1, h2]⟩

/-- C5, counterexample to the claim as stated: submission order is
(motorway, carwow) but the completion order of the single batch is (carwow,
motorway) — visible in the progress events — yet the aggregate lists
motorway's item first: concatenation follows submission order, not
completion order. -/
theorem C5_counterexample :
    (scrapeAllSitesModel envAll (some alwaysOkSub) sitesW 2 [[1, 0]]).events.map
        (fun e => e.siteName) = [carwowName, motorwayName] ∧
    (scrapeAllSitesModel envAll (some alwaysOkSub) sitesW 2 [[1, 0]]).result =
      Except.ok [listingA, listingB] ∧
    [listingA, listingB] ≠ [listingB, listingA] := by
  decide

/-- C5, witness: the amended theorem applied to two schedules of a concrete
run. -/
theorem C5_witness :
    (0 < 2 ∧
      ValidSched 2 (siteJobs envAll sitesW) [[0, 1]] ∧
      ValidSched 2 (siteJobs envAll sitesW) [[1, 0]] ∧
      NoReject (siteJobs envAll sitesW)) ∧
    ((scrapeAllSitesModel envAll none sitesW 2 [[0, 1]]).result =
      .ok ((((siteJobs envAll sitesW).map (fun j => pureOutcome j.2)).filterMap id).flatten) ∧
    (scrapeAllSitesModel envAll none sitesW 2 [[0, 1]]).result =
      (scrapeAllSitesModel envAll none sitesW 2 [[1, 0]]).result) :=
  ⟨⟨by decide, by decide, by decide, by decide⟩,
   C5_submission_order envAll none sitesW 2 [[0, 1]] [[1, 0]] (by decide) (fun _ => rfl)
     (by decide) (by decide) (by decide)⟩

/-! ### Claim C6 -/

/-- C6: the scheduler partitions the job list into `⌈N/K⌉` consecutive
nonempty groups of at most `K` jobs in submission order; the returned outcome
list has length `N`; and in the run's trace, every job of an earlier group
finishes before any job of a later group starts. -/
theorem C6_batch_scheduler (sub : Option Subscriber) (total : Nat)
    (jobs : List (String × JobPre)) (K : Nat) (sched : List (List Nat)) (st : St)
    (hK : 0 < K) (hval : ValidSched K jobs sched) (hnr : NoReject jobs) :
    (chunksOf K jobs).flatten = jobs ∧
    (chunksOf K jobs).length = (jobs.length + K - 1) / K ∧
    (∀ b ∈ chunksOf K jobs, b.length ≤ K ∧ b ≠ []) ∧
    (∃ outs, (runBatches sub total (chunksOf K jobs) sched st).1 = .ok outs ∧
      outs.length = jobs.length) ∧
    ∀ (bi bj : Nat) (Bi Bj : List (Nat × (String × JobPre)))
      (a b : Nat × (String × JobPre)), bi < bj →
      (chunksOf K jobs.enum).get? bi = some Bi →
      (chunksOf K jobs.enum).get? bj = some Bj →
      a ∈ Bi → b ∈ Bj →
      [TraceEv.finish a.1, TraceEv.start b.1].Sublist (runTrace jobs K sched) := by
  have hglue := chunksOf_flatten K hK jobs
  have hnrf : ∀ j ∈ (chunksOf K jobs).flatten, isReject j.2 = false := by
    rw [hglue]; exact hnr
  refine ⟨hglue, chunksOf_count K hK jobs, chunksOf_sizes K hK jobs, ?_,
    runTrace_barrier jobs K sched hval⟩
  obtain ⟨outs, ho, hl⟩ := runBatches_ok_len sub total (chunksOf K jobs) sched st hval hnrf
  exact ⟨outs, ho, by rw [hl, hglue]⟩

/-- C6, witness: the scheduler theorem applied to two jobs with concurrency
limit 1 (two groups). -/
theorem C6_witness :
    (0 < 1 ∧ ValidSched 1 (siteJobs envAll sitesW) [[0], [0]] ∧
      NoReject (siteJobs envAll sitesW)) ∧
    ((chunksOf 1 (siteJobs envAll sitesW)).flatten = siteJobs envAll sitesW ∧
    (chunksOf 1 (siteJobs envAll sitesW)).length =
      ((siteJobs envAll sitesW).length + 1 - 1) / 1 ∧
    (∀ b ∈ chunksOf 1 (siteJobs envAll sitesW), b.length ≤ 1 ∧ b ≠ []) ∧
    (∃ outs, (runBatches none 2 (chunksOf 1 (siteJobs envAll sitesW)) [[0], [0]]
        ⟨0, []⟩).1 = .ok outs ∧ outs.length = (siteJobs envAll sitesW).length) ∧
    ∀ (bi bj : Nat) (Bi Bj : List (Nat × (String × JobPre)))
      (a b : Nat × (String × JobPre)), bi < bj →
      (chunksOf 1 (siteJobs envAll sitesW).enum).get? bi = some Bi →
      (chunksOf 1 (siteJobs envAll sitesW).enum).get? bj = some Bj →
      a ∈ Bi → b ∈ Bj →
      [TraceEv.finish a.1, TraceEv.start b.1].Sublist
        (runTrace (siteJobs envAll sitesW) 1 [[0], [0]])) :=
  ⟨⟨by decide, by decide, by decide⟩,
   C6_batch_scheduler none 2 (siteJobs envAll sitesW) 1 [[0], [0]] ⟨0, []⟩
     (by decide) (by decide) (by decide)⟩

/-! ### Claim C7 -/

/-- C7, amended: when the requested model is truthy but absent from
CarToTrade's filter options, `applyFilters` sets the search-executed flag to
`false` and returns without raising, and `extractCars` returns zero items —
so the job reaches its completion point with `some []` (an empty success),
not a failure (`none`).  The skip is distinguishable from a failure in the
per-job outcome (`some []` vs `none`), but the aggregate returned by the run
carries no per-source reporting in which the two could be distinguished. -/
theorem C7_skip_semantics (params : SearchParams) (page : CartoPage) (now : String)
    (creds : Option LoginCredentials) (cr : LoginCredentials)
    (hcr : creds = some cr) (hu : cr.username ≠ "") (hpw : cr.password ≠ "")
    (hmodel : modelTruthy params.model = true)
    (hmiss : page.optionTexts.find?
      (fun t => t != "" && strIncludes (toUpperStr t) (toUpperStr params.model)) = none) :
    cartotradeApplyFilters params page = some false ∧
    cartotradeExtractCars now page (cartotradeApplyFilters params page) = [] ∧
    jobPre creds cartotradeSpec (cartotradeBehaviour params page now) =
      .finished (some []) ∧
    some ([] : List Listing) ≠ (none : Option (List Listing)) := by
  subst hcr
  have hA : cartotradeApplyFilters params page = some false := by
    unfold cartotradeApplyFilters
    rw [hmodel, hmiss]
    simp
  have hE : cartotradeExtractCars now page (cartotradeApplyFilters params page) = [] := by
    rw [hA]
    rfl
  have hcond : ¬(cr.username = "" ∨ cr.password = "") := by
    intro h
    rcases h with h | h
    · exact hu h
    · exact hpw h
  refine ⟨hA, hE, ?_, by decide⟩
  show (if cr.username = "" ∨ cr.password = "" then
      JobPre.caught ("Missing username or password for " ++ cartotradeSpec.name)
    else JobPre.finished
      (some (cartotradeExtractCars now page (cartotradeApplyFilters params page)))) =
    JobPre.finished (some [])
  rw [if_neg hcond, hE]

/-- C7, counterexample to the reporting part of the claim: a run whose sole
source skips (model unavailable) and a run whose sole source fails return
identical aggregates — the returned payload has no per-source reporting
distinguishing skipped from failed — even though the per-job outcomes
differ (`some []` vs `none`). -/
theorem C7_counterexample :
    (scrapeAllSitesModel envAll none
        [(cartotradeSpec, cartotradeBehaviour fordFocusParams noFocusPage "t")]
        2 [[0]]).result =
      (scrapeAllSitesModel envAll none
        [(cartotradeSpec, failLoginBehaviour)] 2 [[0]]).result ∧
    (scrapeAllSitesModel envAll none
        [(cartotradeSpec, cartotradeBehaviour fordFocusParams noFocusPage "t")]
        2 [[0]]).outcomes ≠
      (scrapeAllSitesModel envAll none
        [(cartotradeSpec, failLoginBehaviour)] 2 [[0]]).outcomes := by
  decide

/-- C7, witness: the amended theorem applied to a FORD FOCUS query against a
page offering only FIESTA and KA. -/
theorem C7_witness :
    (modelTruthy fordFocusParams.model = true ∧
      noFocusPage.optionTexts.find?
        (fun t => t != "" && strIncludes (toUpperStr t) (toUpperStr fordFocusParams.model)) = none) ∧
    (cartotradeApplyFilters fordFocusParams noFocusPage = some false ∧
     cartotradeExtractCars "t" noFocusPage
       (cartotradeApplyFilters fordFocusParams noFocusPage) = [] ∧
     jobPre (some ⟨"secret", "secret"⟩) cartotradeSpec
       (cartotradeBehaviour fordFocusParams noFocusPage "t") = .finished (some []) ∧
     some ([] : List Listing) ≠ (none : Option (List Listing))) :=
  ⟨⟨by decide, by decide⟩,
   C7_skip_semantics fordFocusParams noFocusPage "t" (some ⟨"secret", "secret"⟩)
     ⟨"secret", "secret"⟩ rfl (by decide) (by decide) (by decide) (by decide)⟩

/-! ### Claim C8 -/

/-- C8, amended: for a subscriber that never throws, the run's aggregate,
per-job outcomes and final counter are identical to those of the run with no
subscriber at all — progress emission is a pure side channel.  (A throwing
subscriber, by contrast, changes the outcome of the emitting job: see the
counterexample.) -/
theorem C8_subscriber_blind (env : String → Option String)
    (sites : List (SiteSpec × Behaviour)) (K : Nat) (sched : List (List Nat))
    (s : Subscriber) (hs : ∀ ev, s.throwsOn ev = false) :
    (scrapeAllSitesModel env (some s) sites K sched).result =
      (scrapeAllSitesModel env none sites K sched).result ∧
    (scrapeAllSitesModel env (some s) sites K sched).outcomes =
      (scrapeAllSitesModel env none sites K sched).outcomes ∧
    (scrapeAllSitesModel env (some s) sites K sched).finalCount =
      (scrapeAllSitesModel env none sites K sched).finalCount := by
  obtain ⟨h1, h2⟩ := runBatches_indep s hs sites.length
    (chunksOf K (siteJobs env sites)) sched ⟨0, []⟩ ⟨0, []⟩ rfl
  refine ⟨?_, ?_, ?_⟩
  · rw [scrape_result_def, scrape_result_def, h1]
  · rw [scrape_outcomes_def, scrape_outcomes_def, h1]
  · rw [scrape_count_def, scrape_count_def, h2]

/-- C8, counterexample to the claim as stated: a subscriber that throws
changes the aggregate — the emitting job's exception is caught by the job's
`catch`, its items are dropped and its outcome becomes null. -/
theorem C8_counterexample :
    (scrapeAllSitesModel envAll (some throwingSub)
        [(motorwaySpec, okBehaviour [listingA])] 2 [[0]]).result ≠
      (scrapeAllSitesModel envAll none
        [(motorwaySpec, okBehaviour [listingA])] 2 [[0]]).result := by
  decide

/-- C8, witness: the amended theorem applied to a concrete run with a
non-throwing subscriber. -/
theorem C8_witness :
    (scrapeAllSitesModel envAll (some alwaysOkSub) sitesW 2 [[0, 1]]).result =
      (scrapeAllSitesModel envAll none sitesW 2 [[0, 1]]).result ∧
    (scrapeAllSitesModel envAll (some alwaysOkSub) sitesW 2 [[0, 1]]).outcomes =
      (scrapeAllSitesModel envAll none sitesW 2 [[0, 1]]).outcomes ∧
    (scrapeAllSitesModel envAll (some alwaysOkSub) sitesW 2 [[0, 1]]).finalCount =
      (scrapeAllSitesModel envAll none sitesW 2 [[0, 1]]).finalCount :=
  C8_subscriber_blind envAll sitesW 2 [[0, 1]] alwaysOkSub (fun _ => rfl)

/-! ### Claim C9 -/

/-- C9: for every environment, the CarToTrade credentials take their username
from `CARTOTRADE_USERNAME` but their password from the `CARWOW_PASSWORD`
variable — the very variable the carwow entry reads — not from a
CarToTrade-specific password variable. -/
theorem C9_cartotrade_credentials (env : String → Option String) :
    lookupCred env "CarToTrade" =
      some ⟨envOr env "CARTOTRADE_USERNAME", envOr env "CARWOW_PASSWORD"⟩ ∧
    (lookupCred env "CarToTrade").map (fun c => c.password) =
      (lookupCred env "carwow").map (fun c => c.password) := by
  constructor <;> rfl

/-! ### Claim C10 -/

/-- C10, amended: every listing produced by the cartotrade, carwow and
motorway extraction code carries that adapter's fixed source label
(`"CarToTrade"`, `"CarWow"`, `"Motorway"`) and the extraction timestamp, and
its url is built from the raw href by prefixing the site's fixed domain
whenever the (for CarToTrade: trimmed) href starts with `/`.  The labels
`"CarWow"` and `"Motorway"`, however, differ from the adapters' configured
names `"carwow"` and `"motorway"` (see the counterexample). -/
theorem C10_listing_envelope (now : String) (page : CartoPage) (flag : Option Bool)
    (cards : List SiteCard) (mflag : Option Bool) :
    (∀ l ∈ cartotradeExtractCars now page flag,
      l.source = "CarToTrade" ∧ l.timestamp = now ∧
      (l.url = none ∨ ∃ raw : String,
        l.url = some (if strStartsWith raw "/" then cartotradeDomain ++ raw else raw))) ∧
    (∀ l ∈ carwowExtractCars now cards mflag,
      l.source = "CarWow" ∧ l.timestamp = now ∧
      (l.url = none ∨ ∃ raw : String,
        l.url = some (if strStartsWith raw "/" then carwowDomain ++ raw else raw))) ∧
    (∀ l ∈ motorwayExtractCars now cards,
      l.source = "Motorway" ∧ l.timestamp = now ∧
      (l.url = none ∨ ∃ raw : String,
        l.url = some (if strStartsWith raw "/" then motorwayDomain ++ raw else raw))) := by
  refine ⟨?_, ?_, ?_⟩
  · intro l hl
    unfold cartotradeExtractCars at hl
    split at hl
    · simp at hl
    · obtain ⟨c, hc, hcl⟩ := List.mem_filterMap.mp hl
      unfold cartotradeCardListing at hcl
      split at hcl
      · simp at hcl
      · obtain rfl := Option.some.inj hcl
        refine ⟨rfl, rfl, ?_⟩
        cases hhref : c.href with
        | none => left; rfl
        | some u => right; exact ⟨trimStr u, rfl⟩
  · intro l hl
    unfold carwowExtractCars at hl
    split at hl
    · simp at hl
    · obtain ⟨c, hc, hcl⟩ := List.mem_filterMap.mp hl
      unfold carwowCardListing at hcl
      split at hcl
      · simp at hcl
      · obtain rfl := Option.some.inj hcl
        refine ⟨rfl, rfl, ?_⟩
        cases hhref : c.href with
        | none => left; rfl
        | some u => right; exact ⟨u, rfl⟩
  · intro l hl
    unfold motorwayExtractCars at hl
    obtain ⟨c, hc, hcl⟩ := List.mem_filterMap.mp hl
    unfold motorwayCardListing at hcl
    split at hcl
    · simp at hcl
    · obtain rfl := Option.some.inj hcl
      refine ⟨rfl, rfl, ?_⟩
      cases hhref : c.href with
      | none => left; rfl
      | some u => right; exact ⟨u, rfl⟩

/-- C10, counterexample to the claim as stated: the source labels written by
the carwow and motorway extraction code (`"CarWow"`, `"Motorway"`) are not
equal to those adapters' configured source names (`"carwow"`,
`"motorway"`). -/
theorem C10_counterexample :
    (carwowExtractCars "t" [sampleCard] none).map (fun l => l.source) = ["CarWow"] ∧
    carwowName = "carwow" ∧ "CarWow" ≠ "carwow" ∧
    (motorwayExtractCars "t" [sampleCard]).map (fun l => l.source) = ["Motorway"] ∧
    motorwayName = "motorway" ∧ "Motorway" ≠ "motorway" := by
  decide

/-- C10, witness: the amended theorem applied to a concrete carwow card with
a root-relative href. -/
theorem C10_witness :
    (⟨some (carwowDomain ++ "/x"), "", "", "", "", "", "CarWow", "t"⟩ : Listing) ∈
        carwowExtractCars "t" [sampleCard] none ∧
    ((⟨some (carwowDomain ++ "/x"), "", "", "", "", "", "CarWow", "t"⟩ : Listing).source =
        "CarWow" ∧
     (⟨some (carwowDomain ++ "/x"), "", "", "", "", "", "CarWow", "t"⟩ : Listing).timestamp =
        "t" ∧
     ((⟨some (carwowDomain ++ "/x"), "", "", "", "", "", "CarWow", "t"⟩ : Listing).url =
        none ∨
      ∃ raw : String,
        (⟨some (carwowDomain ++ "/x"), "", "", "", "", "", "CarWow", "t"⟩ : Listing).url =
          some (if strStartsWith raw "/" then carwowDomain ++ raw else raw))) :=
  ⟨by decide,
   (C10_listing_envelope "t" ⟨[], []⟩ none [sampleCard] none).2.1
     (⟨some (carwowDomain ++ "/x"), "", "", "", "", "", "CarWow", "t"⟩ : Listing)
     (by decide)⟩

end CarHunter
